import Mathlib

/-!
HillVallEA, AMaLGaM-Univariate: a shallow embedding.

The optimizer of `src/HillVallEA/amalgam_univariate.cpp` and the solution ordering of
`src/HillVallEA/solution.cpp`, embedded as pure functions.

Conventions of the embedding.

* A C++ `double` is an exact rational (`ℚ`): the properties below are properties of the
  control flow and of exact arithmetic, not of rounding.  The two places where the code
  meets IEEE-754 non-finite values, the quotient of `checkTerminationCondition` and the
  sample success ratio of `sample_new_population`, are embedded with an explicit type of
  quotient results (`quotient_t`).
* `vec_t` is a list of components, `matrix_t` a list of rows, a population the list of its
  solutions, held by value.
* A member function that mutates the object returns the new object; a function with
  reference out-parameters returns the tuple of their new values.
* `sqrt` and `population_t::relative_fitness_std` are not part of the embedded sources; they
  are passed in as `numerics_t`.  The base-class constructor and the population operations
  that sample, evaluate and sort are passed in as `collaborators_t`.
-/

namespace hillvallea

/-- Components of a parameter vector (`vec_t`). -/
abbrev vec_t := List ℚ

/-- Dense matrix, a list of rows (`matrix_t`). -/
abbrev matrix_t := List (List ℚ)

/-- Data members of `solution_t` as initialised and copied in `solution.cpp`. -/
structure solution_t where
  param : vec_t
  param_transformed : vec_t
  f : ℚ
  penalty : ℚ
  elite : Bool
  time_obtained : ℚ
  feval_obtained : Nat
  generation_obtained : Nat
  cluster_number : Int
  multiplier : ℚ
  NormTabDis : ℚ
  deriving DecidableEq

/-- Data members of `amalgam_univariate_t`, those inherited from `optimizer_t` included, as
listed in `amalgam_univariate.hpp` and copied by `clone`. -/
structure amalgam_univariate_t where
  active : Bool
  number_of_parameters : Nat
  lower_param_bounds : vec_t
  upper_param_bounds : vec_t
  number_of_generations : Nat
  pop : List solution_t
  best : solution_t
  selection_fraction : ℚ
  init_univariate_bandwidth : ℚ
  maximum_no_improvement_stretch : Int
  param_std_tolerance : ℚ
  fitness_std_tolerance : ℚ
  mean : vec_t
  covariance : matrix_t
  cholesky : matrix_t
  inverse_cholesky : matrix_t
  no_improvement_stretch : ℚ
  multiplier : ℚ
  old_mean : vec_t
  st_dev_ratio_threshold : ℚ
  distribution_multiplier_decrease : ℚ
  sample_succes_ratio_threshold : ℚ
  delta_ams : ℚ
  apply_ams : Bool
  deriving DecidableEq

/-- Numeric routines used by the optimizer whose code is outside the embedded sources:
`sqrt` of the C library and `population_t::relative_fitness_std`. -/
structure numerics_t where
  sqrt : ℚ → ℚ
  relative_fitness_std : List solution_t → ℚ

/-- Result of a `double` division whose divisor may be zero: IEEE-754 gives an infinity for
a non-zero numerator and a NaN for `0/0`. -/
inductive quotient_t where
  | finite (q : ℚ)
  | pos_inf
  | neg_inf
  | nan
  deriving DecidableEq

/-- The `double` division `a / b`, the divisor being a non-negative zero when it is zero
(it is an infinity norm or a converted integer). -/
def fdiv (a b : ℚ) : quotient_t :=
  if b = 0 then
    (if 0 < a then quotient_t.pos_inf else if a < 0 then quotient_t.neg_inf else quotient_t.nan)
  else quotient_t.finite (a / b)

/-- The comparison `q < t` of a quotient with a finite `double`: false for `+inf` and for
NaN, true for `-inf`. -/
def quotient_t.lt (q : quotient_t) (t : ℚ) : Bool :=
  match q with
  | quotient_t.finite x => decide (x < t)
  | quotient_t.pos_inf => false
  | quotient_t.neg_inf => true
  | quotient_t.nan => false

/-- `solution_t::better_solution` (solution.cpp:88-105): is `sol1` better than `sol2`? -/
def solution_t.better_solution (sol1 sol2 : solution_t) : Bool :=
  if sol1.penalty > 0 then
    if sol2.penalty > 0 then
      decide (sol1.penalty < sol2.penalty)
    else
      false
  else
    if sol2.penalty > 0 then
      true
    else
      decide (sol1.f < sol2.f)

/-- `amalgam_univariate_t::update_distribution_multiplier` (amalgam_univariate.cpp:102-136).
The reference parameters `multiplier` and `no_improvement_stretch` are returned as the pair
`(multiplier, no_improvement_stretch)`. -/
def amalgam_univariate_t.update_distribution_multiplier (o : amalgam_univariate_t)
    (multiplier : ℚ) (improvement : Bool) (no_improvement_stretch : ℚ)
    (sample_success_ratio : ℚ) (sdr : ℚ) : ℚ × ℚ :=
  let sample_succes_ratio_threshold : ℚ := 0.10
  let multiplier :=
    if sample_success_ratio < sample_succes_ratio_threshold then multiplier * 0.5
    else multiplier
  if improvement then
    let no_improvement_stretch : ℚ := 0.0
    let multiplier := if multiplier < 1.0 then 1.0 else multiplier
    let multiplier :=
      if sdr > o.st_dev_ratio_threshold then multiplier / o.distribution_multiplier_decrease
      else multiplier
    (multiplier, no_improvement_stretch)
  else
    let no_improvement_stretch :=
      if multiplier ≤ 1.0 then no_improvement_stretch + 1 else no_improvement_stretch
    let multiplier :=
      if multiplier > 1.0 ∨ no_improvement_stretch ≥ (o.maximum_no_improvement_stretch : ℚ) then
        multiplier * o.distribution_multiplier_decrease
      else multiplier
    let multiplier :=
      if multiplier < 1.0 ∧ no_improvement_stretch < (o.maximum_no_improvement_stretch : ℚ) then
        1.0
      else multiplier
    (multiplier, no_improvement_stretch)

/-- Entry `m[i][j]` of a matrix; an entry outside the stored rows reads as `0`. -/
def matrix_t.entry (m : matrix_t) (i j : Nat) : ℚ := (m.getD i []).getD j 0

/-- The loop of amalgam_univariate.cpp:155-160: the largest diagonal entry of `covariance`,
starting from `0.0`. -/
def max_param_variance (covariance : matrix_t) : ℚ :=
  (List.range covariance.length).foldl
    (fun max_param_variance i =>
      if covariance.entry i i > max_param_variance then covariance.entry i i
      else max_param_variance)
    0.0

/-- Modelled from the spec: `vec_t::infinitynorm` (param.hpp is not among the sources), the
infinity norm of a vector: its largest absolute component, `0` for the empty vector. -/
def infinitynorm (v : vec_t) : ℚ := v.foldl (fun acc x => max acc |x|) 0

/-- Modelled from the spec: component-wise sum of two vectors (`vec_t::operator+=`, param.hpp
is not among the sources). -/
def vec_add (a b : vec_t) : vec_t := List.zipWith (fun x y => x + y) a b

/-- Modelled from the spec: component-wise difference of two vectors (`vec_t::operator-=`,
param.hpp is not among the sources). -/
def vec_sub (a b : vec_t) : vec_t := List.zipWith (fun x y => x - y) a b

/-- Modelled from the spec: product of a scalar and a vector (param.hpp is not among the
sources). -/
def vec_scale (c : ℚ) (v : vec_t) : vec_t := v.map (fun x => c * x)

/-- Modelled from the spec: `population_t::mean` (population.cpp is not among the sources),
the arithmetic mean of the parameter vectors of the population; the empty vector for an
empty population. -/
def population_mean (pop : List solution_t) : vec_t :=
  match pop with
  | [] => []
  | s :: rest =>
    vec_scale (1 / (pop.length : ℚ)) (rest.foldl (fun acc t => vec_add acc t.param) s.param)

/-- Modelled from the spec: `in_range` (declared in mathfunctions.hpp:40, its body is not
among the sources), the component-wise bounds check `lower[i] ≤ sample[i] ≤ upper[i]`. -/
def in_range : vec_t → vec_t → vec_t → Bool
  | x :: sample, l :: lower_param_range, u :: upper_param_range =>
    (decide (l ≤ x) && decide (x ≤ u)) && in_range sample lower_param_range upper_param_range
  | _, _, _ => true

/-- Modelled from the spec: `boundary_repair` (declared in mathfunctions.hpp:41, its body is
not among the sources): clamps each component of the sample into `[lower, upper]` and reports
whether any component was clamped.  Returns `(repaired sample, any clamping occurred)`. -/
def boundary_repair : vec_t → vec_t → vec_t → vec_t × Bool
  | x :: sample, l :: lower_param_range, u :: upper_param_range =>
    let rest := boundary_repair sample lower_param_range upper_param_range
    if x < l then (l :: rest.1, true)
    else if x > u then (u :: rest.1, true)
    else (x :: rest.1, rest.2)
  | sample, _, _ => (sample, false)

/-- The quotient `sqrt(max_param_variance) / mean.infinitynorm()` of
amalgam_univariate.cpp:167, `mean` being the freshly computed population mean. -/
def amalgam_univariate_t.parameter_std_quotient (N : numerics_t) (o : amalgam_univariate_t) :
    quotient_t :=
  fdiv (N.sqrt (max_param_variance o.covariance)) (infinitynorm (population_mean o.pop))

/-- `amalgam_univariate_t::checkTerminationCondition` (amalgam_univariate.cpp:139-182).
Returns the object after the call and the returned `bool`. -/
def amalgam_univariate_t.checkTerminationCondition (N : numerics_t) (o : amalgam_univariate_t) :
    amalgam_univariate_t × Bool :=
  if o.number_of_generations = 0 then
    ({ o with active := true }, !true)
  else if o.pop.length = 0 then
    ({ o with active := false }, !false)
  else
    let max_param_variance := max_param_variance o.covariance
    let mean := population_mean o.pop
    let terminate_for_param_std_mean_zero : Bool :=
      decide (infinitynorm mean ≤ 0) && decide (N.sqrt max_param_variance < o.param_std_tolerance)
    let terminate_on_parameter_std : Bool :=
      (fdiv (N.sqrt max_param_variance) (infinitynorm mean)).lt o.param_std_tolerance
    let terminate_on_fitness_std : Bool :=
      decide (o.pop.length > 1) &&
        decide (N.relative_fitness_std o.pop < o.fitness_std_tolerance)
    let terminate_on_distribution_multiplier : Bool := decide (o.multiplier < 1e-10)
    if terminate_for_param_std_mean_zero || terminate_on_parameter_std ||
        terminate_on_fitness_std || terminate_on_distribution_multiplier then
      ({ o with active := false }, !false)
    else
      ({ o with active := true }, !true)

/-- The divisions of `checkTerminationCondition` with the division guarded: `none` when the
call evaluates a quotient whose divisor is zero, otherwise the quotients it evaluated, in
order (none on the two early returns of lines 142-151, the one of line 167 otherwise). -/
def amalgam_univariate_t.checkTerminationCondition_quotients (N : numerics_t)
    (o : amalgam_univariate_t) : Option (List ℚ) :=
  if o.number_of_generations = 0 then
    some []
  else if o.pop.length = 0 then
    some []
  else
    let max_param_variance := max_param_variance o.covariance
    let mean := population_mean o.pop
    if infinitynorm mean = 0 then none
    else some [N.sqrt max_param_variance / infinitynorm mean]

/-- The `while` loop of amalgam_univariate.cpp:309-317 on the loop state
`(attempts, shrink_factor, ams_params)`.  Each iteration increments `attempts` and the loop
stops at `attempts = 100`, so `100 - attempts` iterations always suffice; the first argument
bounds the number of iterations. -/
def ams_shrink_loop (lower_param_bounds upper_param_bounds : vec_t) (ams_factor : ℚ)
    (ams_direction : vec_t) : Nat → Nat × ℚ × vec_t → Nat × ℚ × vec_t
  | 0, st => st
  | fuel + 1, (attempts, shrink_factor, ams_params) =>
    if attempts < 100 ∧ in_range ams_params lower_param_bounds upper_param_bounds = false then
      let attempts := attempts + 1
      let shrink_factor := shrink_factor * 0.5
      let ams_params := vec_sub ams_params (vec_scale (shrink_factor * ams_factor) ams_direction)
      ams_shrink_loop lower_param_bounds upper_param_bounds ams_factor ams_direction fuel
        (attempts, shrink_factor, ams_params)
    else (attempts, shrink_factor, ams_params)

/-- Body of the `for` loop of `apply_ams_to_population` (amalgam_univariate.cpp:296-323) for
the index `i`, on the pair of the solutions and the counter `attempts`, which is declared
outside the loop (line 291) and therefore carried from one solution to the next. -/
def amalgam_univariate_t.apply_ams_step (o : amalgam_univariate_t) (ams_factor : ℚ)
    (ams_direction : vec_t) (st : List solution_t × Nat) (i : Nat) : List solution_t × Nat :=
  match st.1[i]? with
  | none => st
  | some sol =>
    let shrink_factor : ℚ := 2
    let ams_params := vec_add sol.param (vec_scale (shrink_factor * ams_factor) ams_direction)
    let repaired := (boundary_repair sol.param o.lower_param_bounds o.upper_param_bounds).1
    let r := ams_shrink_loop o.lower_param_bounds o.upper_param_bounds ams_factor ams_direction
      (100 - st.2) (st.2, shrink_factor, ams_params)
    if r.1 < 100 then
      (st.1.set i { sol with param := r.2.2 }, r.1)
    else
      (st.1.set i { sol with param := repaired }, r.1)

/-- The indices visited by `for (size_t i = 1; i < std::min(number_of_ams_solutions + 1,
pop->sols.size()); ++i)`; the sum is a `size_t` sum, modulo `2^64`. -/
def ams_indices (number_of_ams_solutions size : Nat) : List Nat :=
  List.range' 1 (min ((number_of_ams_solutions + 1) % 2 ^ 64) size - 1)

/-- `amalgam_univariate_t::apply_ams_to_population` (amalgam_univariate.cpp:285-324). -/
def amalgam_univariate_t.apply_ams_to_population (o : amalgam_univariate_t)
    (number_of_ams_solutions : Nat) (ams_factor : ℚ) (ams_direction : vec_t) :
    amalgam_univariate_t :=
  { o with
    pop := ((ams_indices number_of_ams_solutions o.pop.length).foldl
      (o.apply_ams_step ams_factor ams_direction) (o.pop, 0)).1 }

/-- An instance with the default tunables of the constructor
(amalgam_univariate.cpp:16-31) for a one-parameter problem on `[-3, 3]`, holding the given
population. -/
def example_instance (pop : List solution_t) (best : solution_t) : amalgam_univariate_t :=
  { active := true
    number_of_parameters := 1
    lower_param_bounds := [-3]
    upper_param_bounds := [3]
    number_of_generations := 1
    pop := pop
    best := best
    selection_fraction := 0.35
    init_univariate_bandwidth := 1
    maximum_no_improvement_stretch := 1 + 25
    param_std_tolerance := 1e-15
    fitness_std_tolerance := 1e-12
    mean := [0]
    covariance := [[1]]
    cholesky := [[1]]
    inverse_cholesky := [[1]]
    no_improvement_stretch := 0
    multiplier := 1
    old_mean := [0]
    st_dev_ratio_threshold := 1.0
    distribution_multiplier_decrease := 0.9
    sample_succes_ratio_threshold := 0.1
    delta_ams := 2.0
    apply_ams := true }

/-- A solution as built by `solution_t::solution_t(vec_t param)` (solution.cpp:43-55), with
the given objective value and penalty. -/
def example_solution (param : vec_t) (f penalty : ℚ) : solution_t :=
  { param := param
    param_transformed := param.map (fun _ => 0)
    f := f
    penalty := penalty
    elite := false
    time_obtained := 0
    feval_obtained := 0
    generation_obtained := 0
    cluster_number := -1
    multiplier := 1
    NormTabDis := 0 }

/-- A stand-in for the numeric routines: the rational square root `Rat.sqrt` (exact on
squares) and a relative fitness spread that is constantly `1`. -/
def example_numerics : numerics_t :=
  { sqrt := Rat.sqrt
    relative_fitness_std := fun _ => 1 }


/-- The conversion `(size_t) x` of a non-negative `double` within the range of `size_t`:
truncation towards zero. -/
def to_size_t (x : ℚ) : Nat := Int.toNat ⌊x⌋

/-- Modelled from the spec: `matrix_t::setIdentity(n, n)` (param.hpp is not among the
sources), the identity matrix. -/
def matrix_identity (n : Nat) : matrix_t :=
  (List.range n).map (fun i => (List.range n).map (fun j => if i = j then 1 else 0))

/-- Modelled from the spec: `matrix_t::multiply(c)` (param.hpp is not among the sources),
every entry multiplied by the scalar. -/
def matrix_multiply (m : matrix_t) (c : ℚ) : matrix_t :=
  m.map (fun row => row.map (fun x => x * c))

/-- Modelled from the spec: `population_t::covariance_univariate` (population.cpp is not
among the sources), the sample covariance diagonal of the population about `mean`: entry
`(i, i)` is the mean of the squared deviations of component `i`, every other entry is 0. -/
def covariance_univariate (pop : List solution_t) (mean : vec_t) : matrix_t :=
  (List.range mean.length).map (fun i => (List.range mean.length).map (fun j =>
    if i = j then
      (pop.map (fun s => (s.param.getD i 0 - mean.getD i 0) ^ 2)).sum / (pop.length : ℚ)
    else 0))

/-- Modelled from the spec: `choleskyDecomposition_univariate` (declared in
mathfunctions.hpp:47, its body is not among the sources): the matrix whose diagonal entries
are the square roots of the diagonal entries of the covariance and whose other entries are
zero. -/
def choleskyDecomposition_univariate (N : numerics_t) (cov : matrix_t) : matrix_t :=
  (List.range cov.length).map (fun i => (List.range cov.length).map (fun j =>
    if i = j then N.sqrt (cov.entry i i) else 0))

/-- Modelled from the spec: `matrixLowerTriangularInverse` (declared in mathfunctions.hpp:59,
its body is not among the sources) in the univariate case, where the factor is diagonal and
the inverse reciprocates each diagonal entry. -/
def matrixLowerTriangularInverse (matrix : matrix_t) (n : Nat) : matrix_t :=
  (List.range n).map (fun i => (List.range n).map (fun j =>
    if i = j then 1 / matrix.entry i i else 0))

/-- Modelled from the spec: `matrix_t::lowerProduct` (param.hpp is not among the sources),
the product of a lower-triangular matrix and a vector: component `i` is the sum of
`m[i][j] * v[j]` over `j ≤ i`. -/
def lowerProduct (m : matrix_t) (v : vec_t) : vec_t :=
  (List.range m.length).map (fun i =>
    ((List.range (i + 1)).map (fun j => m.entry i j * v.getD j 0)).sum)

/-- `amalgam_univariate_t::estimate_sample_parameters` (amalgam_univariate.cpp:184-218).
`pop->sols[0]->param` of an empty population reads as the empty vector. -/
def amalgam_univariate_t.estimate_sample_parameters (N : numerics_t)
    (o : amalgam_univariate_t) : amalgam_univariate_t :=
  let old_mean := o.mean
  let mean :=
    if o.multiplier < 1.0 then (o.pop.head?.map (fun s => s.param)).getD []
    else population_mean o.pop
  let covariance :=
    if o.pop.length = 1 then
      matrix_multiply (matrix_identity mean.length) (o.init_univariate_bandwidth * 0.01)
    else
      covariance_univariate o.pop mean
  let cholesky := choleskyDecomposition_univariate N covariance
  let cholesky := matrix_multiply cholesky (N.sqrt o.multiplier)
  let n := covariance.length
  let inverse_cholesky := matrixLowerTriangularInverse cholesky n
  { o with
    old_mean := old_mean
    mean := mean
    covariance := covariance
    cholesky := cholesky
    inverse_cholesky := inverse_cholesky }

/-- The `for` loop of `getSDR` (amalgam_univariate.cpp:267-269) on the remaining solutions
and the loop state `(i, average_params)`: it stops at the first solution whose `f` is not
below `best.f`. -/
def getSDR_loop (best : solution_t) : List solution_t → Nat × vec_t → Nat × vec_t
  | [], st => st
  | s :: rest, (i, average_params) =>
    if s.f < best.f then getSDR_loop best rest (i + 1, vec_add average_params s.param)
    else (i, average_params)

/-- `amalgam_univariate_t::getSDR` (amalgam_univariate.cpp:261-280). -/
def amalgam_univariate_t.getSDR (o : amalgam_univariate_t) (best : solution_t) (mean : vec_t)
    (inverse_chol : matrix_t) : ℚ :=
  let average_params : vec_t := List.replicate o.number_of_parameters 0.0
  let r := getSDR_loop best o.pop (0, average_params)
  if r.1 = 0 then 0.0
  else
    let average_params := r.2.map (fun x => x / (r.1 : ℚ))
    let diff := vec_sub average_params mean
    infinitynorm (lowerProduct inverse_chol diff)

/-- The draws the random source delivers to one call of the sampling fill. -/
abbrev rng_t := List ℚ

/-- Operations of the collaborators of the optimizer whose code is outside the embedded
sources: the base-class constructor `optimizer_t::optimizer_t` and the population
operations `fill_normal_univariate` (returning the new solutions and the number of raw
draws), `evaluate` (returning the evaluated solutions and the number of evaluations),
`sort_on_fitness` and `improvement_over`. -/
structure collaborators_t where
  optimizer_t : Nat → vec_t → vec_t → ℚ → amalgam_univariate_t
  fill_normal_univariate :
    Nat → Nat → vec_t → matrix_t → vec_t → vec_t → List solution_t → rng_t →
      List solution_t × Int
  evaluate : List solution_t → List solution_t × Nat
  sort_on_fitness : List solution_t → List solution_t
  improvement_over : List solution_t → ℚ → Bool

/-- The constructor `amalgam_univariate_t::amalgam_univariate_t`
(amalgam_univariate.cpp:16-31): the base-class constructor followed by the default values
for AMaLGaM. -/
def amalgam_univariate_t.construct (E : collaborators_t) (number_of_parameters : Nat)
    (lower_param_bounds upper_param_bounds : vec_t) (init_univariate_bandwidth : ℚ) :
    amalgam_univariate_t :=
  { E.optimizer_t number_of_parameters lower_param_bounds upper_param_bounds
      init_univariate_bandwidth with
    maximum_no_improvement_stretch := ((number_of_parameters + 25 : Nat) : Int)
    selection_fraction := 0.35
    st_dev_ratio_threshold := 1.0
    distribution_multiplier_decrease := 0.9
    sample_succes_ratio_threshold := 0.1
    param_std_tolerance := 1e-15
    fitness_std_tolerance := 1e-12
    apply_ams := true
    delta_ams := 2.0 }

/-- `amalgam_univariate_t::clone` (amalgam_univariate.cpp:35-79): a fresh instance built by
the constructor, then the member-wise assignments of lines 42-76.  The handles
`fitness_function` and `rng` and the statistics `average_fitness_history` are not part of
the embedded state. -/
def amalgam_univariate_t.clone (E : collaborators_t) (o : amalgam_univariate_t) :
    amalgam_univariate_t :=
  let opt := amalgam_univariate_t.construct E o.number_of_parameters o.lower_param_bounds
    o.upper_param_bounds o.init_univariate_bandwidth
  { opt with
    active := o.active
    number_of_parameters := o.number_of_parameters
    lower_param_bounds := o.lower_param_bounds
    upper_param_bounds := o.upper_param_bounds
    number_of_generations := o.number_of_generations
    pop := o.pop
    best := o.best
    selection_fraction := o.selection_fraction
    init_univariate_bandwidth := o.init_univariate_bandwidth
    maximum_no_improvement_stretch := o.maximum_no_improvement_stretch
    param_std_tolerance := o.param_std_tolerance
    fitness_std_tolerance := o.fitness_std_tolerance
    mean := o.mean
    covariance := o.covariance
    cholesky := o.cholesky
    inverse_cholesky := o.inverse_cholesky
    no_improvement_stretch := o.no_improvement_stretch
    multiplier := o.multiplier
    old_mean := o.old_mean
    st_dev_ratio_threshold := o.st_dev_ratio_threshold
    distribution_multiplier_decrease := o.distribution_multiplier_decrease
    sample_succes_ratio_threshold := o.sample_succes_ratio_threshold
    delta_ams := o.delta_ams
    apply_ams := o.apply_ams }

/-- `amalgam_univariate_t::initialize_from_population` (amalgam_univariate.cpp:86-95);
`*pop->sols[0]` of an empty population leaves `best` as it was. -/
def amalgam_univariate_t.initialize_from_population (E : collaborators_t)
    (o : amalgam_univariate_t) (pop : List solution_t) : amalgam_univariate_t :=
  let old_mean := population_mean pop
  let mean := old_mean
  let pop := E.sort_on_fitness pop
  { o with
    pop := pop
    multiplier := 1.0
    no_improvement_stretch := 0
    old_mean := old_mean
    mean := mean
    best := pop.head?.getD o.best }

/-- The sampling fill of `sample_new_population` (amalgam_univariate.cpp:226): the new
solutions and `number_of_samples`. -/
def amalgam_univariate_t.sample_fill (E : collaborators_t) (o : amalgam_univariate_t)
    (sample_size : Nat) (rng : rng_t) : List solution_t × Int :=
  E.fill_normal_univariate sample_size o.number_of_parameters o.mean o.cholesky
    o.lower_param_bounds o.upper_param_bounds o.pop rng

/-- The AMS stage of `sample_new_population` (amalgam_univariate.cpp:229-235) on the
instance holding the freshly sampled population. -/
def amalgam_univariate_t.sample_ams (o : amalgam_univariate_t) (sample_size : Nat) :
    amalgam_univariate_t :=
  if o.apply_ams then
    let ams_direction := vec_sub o.mean o.old_mean
    let number_of_ams_solutions := to_size_t (0.5 * o.selection_fraction * (sample_size : ℚ))
    o.apply_ams_to_population number_of_ams_solutions (o.delta_ams * o.multiplier) ams_direction
  else o

/-- The `double` quotient `(double)(sample_size - 1) / number_of_samples` of
amalgam_univariate.cpp:246: `sample_size - 1` is a `size_t` difference, modulo `2^64`, and
the quotient by `number_of_samples = 0` is `+inf` or NaN. -/
def sample_success_ratio (sample_size : Nat) (number_of_samples : Int) : quotient_t :=
  fdiv ((((sample_size + 2 ^ 64 - 1) % 2 ^ 64 : Nat) : ℚ)) (number_of_samples : ℚ)

/-- The call of `update_distribution_multiplier` at amalgam_univariate.cpp:247 on a ratio
that may be non-finite.  The routine reads the ratio only in the comparison
`sample_success_ratio < 0.10` of line 109, which is false for `+inf` and for NaN and true for
`-inf`: a non-finite ratio is passed on as a finite ratio on the same side of `0.10`. -/
def amalgam_univariate_t.update_distribution_multiplier_quotient (o : amalgam_univariate_t)
    (multiplier : ℚ) (improvement : Bool) (no_improvement_stretch : ℚ)
    (sample_success_ratio : quotient_t) (sdr : ℚ) : ℚ × ℚ :=
  match sample_success_ratio with
  | quotient_t.finite q =>
    o.update_distribution_multiplier multiplier improvement no_improvement_stretch q sdr
  | quotient_t.pos_inf =>
    o.update_distribution_multiplier multiplier improvement no_improvement_stretch 1 sdr
  | quotient_t.neg_inf =>
    o.update_distribution_multiplier multiplier improvement no_improvement_stretch (-1) sdr
  | quotient_t.nan =>
    o.update_distribution_multiplier multiplier improvement no_improvement_stretch 1 sdr

/-- `amalgam_univariate_t::sample_new_population` (amalgam_univariate.cpp:221-253).  Returns
the object after the call and the number of evaluations.  `*pop->first()` of an empty
population leaves `best` as it was. -/
def amalgam_univariate_t.sample_new_population (E : collaborators_t)
    (o : amalgam_univariate_t) (sample_size : Nat) (rng : rng_t) :
    amalgam_univariate_t × Nat :=
  let filled := o.sample_fill E sample_size rng
  let number_of_samples := filled.2
  let o1 := ({ o with pop := filled.1 }).sample_ams sample_size
  let evaluated := E.evaluate o1.pop
  let number_of_evaluations := evaluated.2
  let o2 := { o1 with pop := E.sort_on_fitness evaluated.1 }
  let improvement := E.improvement_over o2.pop o2.best.f
  let sdr := o2.getSDR o2.best o2.mean o2.inverse_cholesky
  let sample_success_ratio := sample_success_ratio sample_size number_of_samples
  let upd := o2.update_distribution_multiplier_quotient o2.multiplier improvement
    o2.no_improvement_stretch sample_success_ratio sdr
  ({ o2 with
      multiplier := upd.1
      no_improvement_stretch := upd.2
      best := o2.pop.head?.getD o2.best
      number_of_generations := o2.number_of_generations + 1 },
    number_of_evaluations)

/-- The shift the specification gives to an AMS solution:
`x + shrink_factor · ams_factor · ams_direction`. -/
def ams_shift_spec (x : vec_t) (shrink_factor ams_factor : ℚ) (ams_direction : vec_t) : vec_t :=
  vec_add x (vec_scale (shrink_factor * ams_factor) ams_direction)

/-- Stand-ins for the collaborators on an already evaluated and sorted population: the fill
keeps the current population, the evaluation and the sort keep the solutions as they are. -/
def example_collaborators : collaborators_t :=
  { optimizer_t := fun n lower upper bandwidth =>
      { example_instance [] (example_solution [] 0 0) with
        number_of_parameters := n
        lower_param_bounds := lower
        upper_param_bounds := upper
        init_univariate_bandwidth := bandwidth }
    fill_normal_univariate := fun _ _ _ _ _ _ pop _ => (pop, (pop.length : Int))
    evaluate := fun pop => (pop, pop.length)
    sort_on_fitness := fun pop => pop
    improvement_over := fun _ _ => false }

/-- Stand-ins for the collaborators of one generation on a one-parameter problem with the
objective `f(x) = x²`: the fill keeps the first solution of the population and adds one
solution per draw, the evaluation fills `f` and `penalty` of every solution, the sort is an
insertion sort by the better-than ordering. -/
def example_generation_collaborators : collaborators_t :=
  { optimizer_t := example_collaborators.optimizer_t
    fill_normal_univariate := fun _ _ _ _ _ _ pop rng =>
      (pop.take 1 ++ rng.map (fun z => example_solution [z] 0 0), (rng.length : Int))
    evaluate := fun pop =>
      (pop.map (fun s => { s with f := (s.param.headD 0) ^ 2, penalty := 0 }), pop.length)
    sort_on_fitness := fun pop =>
      pop.insertionSort (fun a b => b.better_solution a = false)
    improvement_over := fun pop f =>
      match pop.head? with
      | some s => decide (s.f < f)
      | none => false }

/-! The adaptation controller: `update_distribution_multiplier` -/

/-- C1, as stated, fails: from multiplier 1 with an improvement and a sample success ratio of
0.05 the resulting multiplier is 1, which is above 1/2. -/
theorem update_distribution_multiplier_not_le_half :
    (0.05 : ℚ) < 0.10 ∧
    ¬ ((example_instance [] (example_solution [0] 0 0)).update_distribution_multiplier
        1 true 0 0.05 0).1 ≤ 1 / 2 := by
  norm_num [amalgam_univariate_t.update_distribution_multiplier, example_instance]

/-- C1, amended: when `sample_success_ratio < 0.10` the multiplier is halved first, whatever
the other arguments are (the call equals the call on `multiplier / 2` with a ratio that does
not trigger the halving), and the resulting multiplier is at most `multiplier / 2` when the
halved multiplier is not below the floor `1.0`, the growth rule does not fire (no improvement,
or `sdr ≤ st_dev_ratio_threshold`) and `distribution_multiplier_decrease ≤ 1`. -/
theorem update_distribution_multiplier_halves (o : amalgam_univariate_t) (multiplier : ℚ)
    (improvement : Bool) (no_improvement_stretch sample_success_ratio sdr : ℚ)
    (hr : sample_success_ratio < 0.10) :
    o.update_distribution_multiplier multiplier improvement no_improvement_stretch
        sample_success_ratio sdr
      = o.update_distribution_multiplier (multiplier / 2) improvement no_improvement_stretch
          0.10 sdr ∧
    (1 ≤ multiplier / 2 → (improvement = false ∨ sdr ≤ o.st_dev_ratio_threshold) →
      o.distribution_multiplier_decrease ≤ 1 →
      (o.update_distribution_multiplier multiplier improvement no_improvement_stretch
        sample_success_ratio sdr).1 ≤ multiplier / 2) := by
  have hm : multiplier * 0.5 = multiplier / 2 := by norm_num; ring
  constructor
  · simp only [amalgam_univariate_t.update_distribution_multiplier, hr, if_true, hm,
      lt_irrefl, if_false]
  · intro h1 hg hd
    simp only [amalgam_univariate_t.update_distribution_multiplier, hr, if_true, hm]
    cases improvement with
    | true =>
      have hs : sdr ≤ o.st_dev_ratio_threshold := by
        rcases hg with h | h
        · cases h
        · exact h
      have h2 : ¬ (multiplier / 2 < 1.0) := by norm_num; linarith
      simp [h2, not_lt.mpr hs]
    | false =>
      simp only [Bool.false_eq_true, if_false]
      split_ifs <;> norm_num at * <;> nlinarith

/-- Witness of `update_distribution_multiplier_halves`: multiplier 4 at ratio 0.05 without
improvement. -/
theorem update_distribution_multiplier_halves_witness :
    ((example_instance [] (example_solution [0] 0 0)).update_distribution_multiplier
        4 false 0 0.05 0).1 ≤ 4 / 2 :=
  (update_distribution_multiplier_halves (example_instance [] (example_solution [0] 0 0))
    4 false 0 0.05 0 (by norm_num)).2 (by norm_num) (Or.inl rfl)
    (by norm_num [example_instance])

/-- C9: with `improvement = true` and `sdr ≤ st_dev_ratio_threshold` the resulting multiplier
is `max 1.0 m'`, where `m'` is the input multiplier, halved first when
`sample_success_ratio < 0.10`: floored at 1.0 and not increased. -/
theorem update_distribution_multiplier_improvement_floor (o : amalgam_univariate_t)
    (multiplier no_improvement_stretch sample_success_ratio sdr : ℚ)
    (hs : sdr ≤ o.st_dev_ratio_threshold) :
    (o.update_distribution_multiplier multiplier true no_improvement_stretch
        sample_success_ratio sdr).1
      = max 1.0 (if sample_success_ratio < 0.10 then multiplier / 2 else multiplier) := by
  have hm : multiplier * 0.5 = multiplier / 2 := by norm_num; ring
  simp only [amalgam_univariate_t.update_distribution_multiplier, if_true, hm, gt_iff_lt,
    not_lt.mpr hs, if_false]
  split_ifs with h1 h2 h2
  · exact (max_eq_left (le_of_lt h2)).symm
  · exact (max_eq_right (not_lt.mp h2)).symm
  · exact (max_eq_left (le_of_lt h2)).symm
  · exact (max_eq_right (not_lt.mp h2)).symm

/-- Witness of `update_distribution_multiplier_improvement_floor`: multiplier 1 at ratio 0.05
is halved to 1/2 and floored back to 1. -/
theorem update_distribution_multiplier_improvement_floor_witness :
    ((example_instance [] (example_solution [0] 0 0)).update_distribution_multiplier
        1 true 7 0.05 (1 / 2)).1
      = max 1.0 (if (0.05 : ℚ) < 0.10 then 1 / 2 else 1) :=
  update_distribution_multiplier_improvement_floor
    (example_instance [] (example_solution [0] 0 0)) 1 7 0.05 (1 / 2)
    (by norm_num [example_instance])

/-- C10: with `improvement = true` the resulting `no_improvement_stretch` is 0; with `m'` the
input multiplier, halved first when `sample_success_ratio < 0.10`, the resulting multiplier
is `max 1.0 m' / distribution_multiplier_decrease` when `sdr > st_dev_ratio_threshold`, which
is strictly above `max 1.0 m'` for `0 < distribution_multiplier_decrease < 1`; and the
resulting multiplier is at least 1.0, when the growth rule does not fire and, when it does,
for `0 < distribution_multiplier_decrease ≤ 1`. -/
theorem update_distribution_multiplier_improvement (o : amalgam_univariate_t)
    (multiplier no_improvement_stretch sample_success_ratio sdr : ℚ) :
    (o.update_distribution_multiplier multiplier true no_improvement_stretch
        sample_success_ratio sdr).2 = 0 ∧
    (sdr > o.st_dev_ratio_threshold →
      (o.update_distribution_multiplier multiplier true no_improvement_stretch
          sample_success_ratio sdr).1
        = max 1.0 (if sample_success_ratio < 0.10 then multiplier / 2 else multiplier)
            / o.distribution_multiplier_decrease) ∧
    (sdr > o.st_dev_ratio_threshold → 0 < o.distribution_multiplier_decrease →
      o.distribution_multiplier_decrease < 1 →
      max 1.0 (if sample_success_ratio < 0.10 then multiplier / 2 else multiplier)
        < (o.update_distribution_multiplier multiplier true no_improvement_stretch
            sample_success_ratio sdr).1) ∧
    ((sdr ≤ o.st_dev_ratio_threshold ∨
        (0 < o.distribution_multiplier_decrease ∧ o.distribution_multiplier_decrease ≤ 1)) →
      1.0 ≤ (o.update_distribution_multiplier multiplier true no_improvement_stretch
          sample_success_ratio sdr).1) := by
  have hm : multiplier * 0.5 = multiplier / 2 := by norm_num; ring
  have hfloor : ∀ x : ℚ, (if x < 1.0 then (1.0 : ℚ) else x) = max 1.0 x := by
    intro x
    split_ifs with h
    · exact (max_eq_left (le_of_lt h)).symm
    · exact (max_eq_right (not_lt.mp h)).symm
  have hv : (o.update_distribution_multiplier multiplier true no_improvement_stretch
          sample_success_ratio sdr).1
        = if sdr > o.st_dev_ratio_threshold then
            max 1.0 (if sample_success_ratio < 0.10 then multiplier / 2 else multiplier)
              / o.distribution_multiplier_decrease
          else max 1.0 (if sample_success_ratio < 0.10 then multiplier / 2 else multiplier) := by
    simp only [amalgam_univariate_t.update_distribution_multiplier, if_true, hm, hfloor]
  have h10 : (1.0 : ℚ) = 1 := by norm_num
  obtain ⟨M, hM⟩ : ∃ M : ℚ,
      M = max 1.0 (if sample_success_ratio < 0.10 then multiplier / 2 else multiplier) :=
    ⟨_, rfl⟩
  have hone : (1 : ℚ) ≤ M := by
    rw [hM, h10]
    exact le_max_left _ _
  rw [← hM] at hv ⊢
  refine ⟨?_, ?_, ?_, ?_⟩
  · norm_num [amalgam_univariate_t.update_distribution_multiplier]
  · intro hs
    rw [hv, if_pos hs]
  · intro hs hd0 hd1
    rw [hv, if_pos hs, lt_div_iff₀ hd0]
    nlinarith
  · intro h
    rw [hv, h10]
    by_cases hs : sdr > o.st_dev_ratio_threshold
    · rw [if_pos hs]
      rcases h with h | ⟨hd0, hd1⟩
      · exact absurd hs (not_lt.mpr h)
      · rw [le_div_iff₀ hd0]
        nlinarith
    · rw [if_neg hs]
      exact hone

/-- Witness of `update_distribution_multiplier_improvement`: with the default decrease 0.9
and `sdr = 2` above the threshold 1.0, multiplier 3 grows strictly. -/
theorem update_distribution_multiplier_improvement_witness :
    max (1.0 : ℚ) (if (0.5 : ℚ) < 0.10 then 3 / 2 else 3)
      < ((example_instance [] (example_solution [0] 0 0)).update_distribution_multiplier
          3 true 4 0.5 2).1 :=
  (update_distribution_multiplier_improvement
    (example_instance [] (example_solution [0] 0 0)) 3 4 0.5 2).2.2.1
    (by norm_num [example_instance]) (by norm_num [example_instance])
    (by norm_num [example_instance])

/-! The better-than ordering: `better_solution` -/

/-- C8: `better_solution sol1 sol2` holds exactly when both are infeasible (penalty > 0) and
`sol1` has the smaller penalty, or `sol1` is feasible and `sol2` infeasible, or both are
feasible and `sol1` has the smaller `f`; in particular a feasible solution is better than an
infeasible one and an infeasible one is not better than a feasible one, whatever their `f`. -/
theorem better_solution_iff (sol1 sol2 : solution_t) :
    (sol1.better_solution sol2 = true ↔
      (0 < sol1.penalty ∧ 0 < sol2.penalty ∧ sol1.penalty < sol2.penalty) ∨
      (¬ 0 < sol1.penalty ∧ 0 < sol2.penalty) ∨
      (¬ 0 < sol1.penalty ∧ ¬ 0 < sol2.penalty ∧ sol1.f < sol2.f)) ∧
    (¬ 0 < sol1.penalty → 0 < sol2.penalty →
      sol1.better_solution sol2 = true ∧ sol2.better_solution sol1 = false) := by
  constructor
  · unfold solution_t.better_solution
    by_cases h1 : 0 < sol1.penalty <;> by_cases h2 : 0 < sol2.penalty <;>
      simp [h1, h2]
  · intro h1 h2
    simp [solution_t.better_solution, h1, h2]

/-- Witness of `better_solution_iff`: a feasible solution with the larger `f` against an
infeasible one. -/
theorem better_solution_iff_witness :
    (example_solution [0] 5 0).better_solution (example_solution [0] 1 2) = true ∧
    (example_solution [0] 1 2).better_solution (example_solution [0] 5 0) = false :=
  (better_solution_iff (example_solution [0] 5 0) (example_solution [0] 1 2)).2
    (by norm_num [example_solution]) (by norm_num [example_solution])

/-! The termination evaluator: `checkTerminationCondition` -/

/-- A running maximum over a list of indices: the result is at least the start value and
every visited value, and it is the start value or one of the visited values. -/
theorem foldl_running_max (g : Nat → ℚ) (L : List Nat) (acc : ℚ) :
    acc ≤ L.foldl (fun m i => if g i > m then g i else m) acc ∧
    (∀ i ∈ L, g i ≤ L.foldl (fun m i => if g i > m then g i else m) acc) ∧
    (L.foldl (fun m i => if g i > m then g i else m) acc = acc ∨
      ∃ i ∈ L, L.foldl (fun m i => if g i > m then g i else m) acc = g i) := by
  induction L generalizing acc with
  | nil => simp
  | cons x xs ih =>
    simp only [List.foldl_cons, List.mem_cons]
    obtain ⟨h1, h2, h3⟩ := ih (if g x > acc then g x else acc)
    have hacc : acc ≤ (if g x > acc then g x else acc) := by
      split_ifs with h
      · exact le_of_lt h
      · exact le_refl _
    have hx : g x ≤ (if g x > acc then g x else acc) := by
      split_ifs with h
      · exact le_refl _
      · exact not_lt.mp h
    refine ⟨le_trans hacc h1, ?_, ?_⟩
    · intro i hi
      rcases hi with rfl | hi
      · exact le_trans hx h1
      · exact h2 i hi
    · rcases h3 with h3 | ⟨i, hi, h3⟩
      · by_cases h : g x > acc
        · right
          exact ⟨x, Or.inl rfl, by rw [h3, if_pos h]⟩
        · left
          rw [h3, if_neg h]
      · right
        exact ⟨i, Or.inr hi, h3⟩

/-- `max_param_variance` is the largest diagonal entry of the covariance floored at 0: it is
non-negative, at least every diagonal entry, and either 0 or one of the diagonal entries. -/
theorem max_param_variance_spec (covariance : matrix_t) :
    0 ≤ max_param_variance covariance ∧
    (∀ i, i < covariance.length → covariance.entry i i ≤ max_param_variance covariance) ∧
    (max_param_variance covariance = 0 ∨
      ∃ i, i < covariance.length ∧ max_param_variance covariance = covariance.entry i i) := by
  have h00 : (0.0 : ℚ) = 0 := by norm_num
  obtain ⟨h1, h2, h3⟩ :=
    foldl_running_max (fun i => covariance.entry i i) (List.range covariance.length) 0
  unfold max_param_variance
  rw [h00]
  refine ⟨h1, ?_, ?_⟩
  · intro i hi
    exact h2 i (List.mem_range.mpr hi)
  · rcases h3 with h3 | ⟨i, hi, h3⟩
    · exact Or.inl h3
    · exact Or.inr ⟨i, List.mem_range.mp hi, h3⟩

/-- When no diagonal entry of the covariance is positive, `max_param_variance` is 0. -/
theorem max_param_variance_eq_zero (covariance : matrix_t)
    (h : ∀ i, i < covariance.length → covariance.entry i i ≤ 0) :
    max_param_variance covariance = 0 := by
  obtain ⟨h1, _, h3⟩ := max_param_variance_spec covariance
  rcases h3 with h3 | ⟨i, hi, h3⟩
  · exact h3
  · exact le_antisymm (h3 ▸ h i hi) h1

/-- The running maximum of absolute values never drops below its start value. -/
theorem foldl_max_abs_ge (v : vec_t) (acc : ℚ) :
    acc ≤ v.foldl (fun acc x => max acc |x|) acc := by
  induction v generalizing acc with
  | nil => simp
  | cons x xs ih =>
    simp only [List.foldl_cons]
    exact le_trans (le_max_left _ _) (ih _)

/-- The infinity norm is non-negative. -/
theorem infinitynorm_nonneg (v : vec_t) : 0 ≤ infinitynorm v :=
  foldl_max_abs_ge v 0

/-- The outcome of `checkTerminationCondition`, branch by branch, with the four criteria of
amalgam_univariate.cpp:166-169 as they are evaluated by the code. -/
theorem checkTerminationCondition_eq (N : numerics_t) (o : amalgam_univariate_t) :
    o.checkTerminationCondition N =
      if o.number_of_generations = 0 then ({ o with active := true }, false)
      else if o.pop.length = 0 then ({ o with active := false }, true)
      else if (infinitynorm (population_mean o.pop) ≤ 0 ∧
            N.sqrt (max_param_variance o.covariance) < o.param_std_tolerance) ∨
          (fdiv (N.sqrt (max_param_variance o.covariance))
              (infinitynorm (population_mean o.pop))).lt o.param_std_tolerance = true ∨
          (o.pop.length > 1 ∧ N.relative_fitness_std o.pop < o.fitness_std_tolerance) ∨
          o.multiplier < 1e-10 then ({ o with active := false }, true)
      else ({ o with active := true }, false) := by
  unfold amalgam_univariate_t.checkTerminationCondition
  by_cases h0 : o.number_of_generations = 0
  · simp [h0]
  · by_cases h1 : o.pop.length = 0
    · simp [h0, h1]
    · simp only [h0, h1, if_false, Bool.not_true, Bool.not_false, Bool.or_eq_true,
        Bool.and_eq_true, decide_eq_true_eq, or_assoc]

/-- With a non-negative numerator the comparison of the `double` quotient with a finite
tolerance is the comparison of the rational quotient, and false for a zero divisor. -/
theorem fdiv_lt_iff (a b t : ℚ) (ha : 0 ≤ a) :
    (fdiv a b).lt t = true ↔ b ≠ 0 ∧ a / b < t := by
  unfold fdiv
  by_cases hb : b = 0
  · rw [if_pos hb]
    by_cases hpos : 0 < a
    · simp [hpos, hb, quotient_t.lt]
    · have hneg : ¬ a < 0 := not_lt.mpr ha
      simp [hpos, hneg, hb, quotient_t.lt]
  · simp [hb, quotient_t.lt]

/-- C4, as stated, fails: an inactive instance at generation 1 whose single solution sits at
1 with covariance 1 and multiplier 1 meets no termination criterion, and the call sets
`active = true` again. -/
theorem checkTerminationCondition_reactivates :
    ({ example_instance [example_solution [1] 0 0] (example_solution [1] 0 0) with
        active := false }).active = false ∧
    (({ example_instance [example_solution [1] 0 0] (example_solution [1] 0 0) with
        active := false }).checkTerminationCondition example_numerics).1.active = true := by
  constructor
  · rfl
  · rw [checkTerminationCondition_eq]
    norm_num [example_instance, example_solution, example_numerics, population_mean,
      infinitynorm, vec_scale, max_param_variance, matrix_t.entry, fdiv, quotient_t.lt,
      List.range, List.range.loop, Rat.sqrt]

/-- C4, amended: `checkTerminationCondition` recomputes `active` on every call without
reading its previous value; from `active = false`, as from `active = true`, the flag is
false after the call exactly when `number_of_generations ≥ 1` and the population is empty or one of the four
termination criteria holds, and otherwise the call sets `active = true` again. -/
theorem checkTerminationCondition_recomputes_active (N : numerics_t)
    (o : amalgam_univariate_t) :
    (∀ a : Bool, (({ o with active := a }).checkTerminationCondition N).1.active
      = (o.checkTerminationCondition N).1.active) ∧
    ((o.checkTerminationCondition N).1.active = false ↔
      o.number_of_generations ≠ 0 ∧
      (o.pop.length = 0 ∨
        (infinitynorm (population_mean o.pop) ≤ 0 ∧
          N.sqrt (max_param_variance o.covariance) < o.param_std_tolerance) ∨
        (fdiv (N.sqrt (max_param_variance o.covariance))
          (infinitynorm (population_mean o.pop))).lt o.param_std_tolerance = true ∨
        (o.pop.length > 1 ∧ N.relative_fitness_std o.pop < o.fitness_std_tolerance) ∨
        o.multiplier < 1e-10)) ∧
    ((o.checkTerminationCondition N).1.active = true ↔
      (o.checkTerminationCondition N).2 = false) := by
  refine ⟨?_, ?_, ?_⟩
  · intro a
    rw [checkTerminationCondition_eq, checkTerminationCondition_eq]
  · rw [checkTerminationCondition_eq]
    by_cases h0 : o.number_of_generations = 0
    · simp [h0]
    · by_cases h1 : o.pop.length = 0
      · simp [h0, h1]
      · simp only [h0, h1, if_false, false_or, ne_eq, not_false_eq_true, true_and]
        split_ifs with hc
        · simp [hc]
        · simp [hc]
  · rw [checkTerminationCondition_eq]
    split_ifs <;> simp

/-- Witness of `checkTerminationCondition_recomputes_active`: the inactive instance at
generation 1 with one solution at 1. -/
theorem checkTerminationCondition_recomputes_active_witness :
    (({ example_instance [example_solution [1] 0 0] (example_solution [1] 0 0) with
        active := false }).checkTerminationCondition example_numerics).1.active = true ↔
    (({ example_instance [example_solution [1] 0 0] (example_solution [1] 0 0) with
        active := false }).checkTerminationCondition example_numerics).2 = false :=
  (checkTerminationCondition_recomputes_active example_numerics
    ({ example_instance [example_solution [1] 0 0] (example_solution [1] 0 0) with
        active := false })).2.2

/-- C5: at generation ≥ 1, with a non-empty population, no positive diagonal entry in the
covariance (so that `max_param_variance = 0`), a population mean of non-zero infinity norm
and `param_std_tolerance > 0`, the call sets `active = false` and returns true, whatever the
multiplier and the fitness spread are (`sqrt 0 = 0`). -/
theorem checkTerminationCondition_degenerate (N : numerics_t) (o : amalgam_univariate_t)
    (hsqrt : N.sqrt 0 = 0)
    (hgen : 1 ≤ o.number_of_generations) (hpop : o.pop ≠ [])
    (hvar : ∀ i, i < o.covariance.length → o.covariance.entry i i ≤ 0)
    (hmean : infinitynorm (population_mean o.pop) ≠ 0)
    (htol : 0 < o.param_std_tolerance) :
    o.checkTerminationCondition N = ({ o with active := false }, true) := by
  have h0 : o.number_of_generations ≠ 0 := by omega
  have h1 : o.pop.length ≠ 0 := by
    intro h
    exact hpop (List.length_eq_zero.mp h)
  have hq : (fdiv (N.sqrt (max_param_variance o.covariance))
      (infinitynorm (population_mean o.pop))).lt o.param_std_tolerance = true := by
    rw [max_param_variance_eq_zero o.covariance hvar, hsqrt]
    simp [fdiv, hmean, quotient_t.lt, htol]
  rw [checkTerminationCondition_eq, if_neg h0, if_neg h1, if_pos (Or.inr (Or.inl hq))]

/-- Witness of `checkTerminationCondition_degenerate`: one solution at 1 with a zero
covariance, at generation 1. -/
theorem checkTerminationCondition_degenerate_witness :
    ({ example_instance [example_solution [1] 0 0] (example_solution [1] 0 0) with
        covariance := [[0]] }).checkTerminationCondition example_numerics
      = ({ { example_instance [example_solution [1] 0 0] (example_solution [1] 0 0) with
        covariance := [[0]] } with active := false }, true) :=
  checkTerminationCondition_degenerate example_numerics
    ({ example_instance [example_solution [1] 0 0] (example_solution [1] 0 0) with
        covariance := [[0]] })
    (by simp [example_numerics])
    (by simp [example_instance])
    (by simp [example_instance])
    (by
      intro i hi
      have hi0 : i = 0 := by simpa [example_instance] using hi
      subst hi0
      simp [example_instance, matrix_t.entry])
    (by norm_num [example_instance, example_solution, population_mean, infinitynorm, vec_scale])
    (by norm_num [example_instance])

/-- C6: the decision table of `checkTerminationCondition`.  The returned value is the
negation of the resulting `active`, and only `active` changes; at generation 0 `active`
becomes true; at generation ≥ 1 with an empty population it becomes false; at generation ≥ 1
with a non-empty population it becomes false exactly when the mean has infinity norm ≤ 0 and
`sqrt max_param_variance < param_std_tolerance`, or the quotient
`sqrt max_param_variance / ‖mean‖∞` is below `param_std_tolerance` (a quotient by a zero norm
is `+inf` or NaN and is not below it), or the population has more than one solution and its
relative fitness spread is below `fitness_std_tolerance`, or `multiplier < 1e-10`; where
`max_param_variance` is the largest diagonal entry of the covariance floored at 0 and the
mean is the population mean.  (`sqrt` maps non-negative numbers to non-negative numbers.) -/
theorem checkTerminationCondition_decision_table (N : numerics_t) (o : amalgam_univariate_t)
    (hsqrt : ∀ x, 0 ≤ x → 0 ≤ N.sqrt x) :
    (o.checkTerminationCondition N).2 = !(o.checkTerminationCondition N).1.active ∧
    (o.checkTerminationCondition N).1
      = { o with active := (o.checkTerminationCondition N).1.active } ∧
    (o.number_of_generations = 0 → (o.checkTerminationCondition N).1.active = true) ∧
    (1 ≤ o.number_of_generations → o.pop.length = 0 →
      (o.checkTerminationCondition N).1.active = false) ∧
    (1 ≤ o.number_of_generations → o.pop.length ≠ 0 →
      ((o.checkTerminationCondition N).1.active = false ↔
        (infinitynorm (population_mean o.pop) ≤ 0 ∧
          N.sqrt (max_param_variance o.covariance) < o.param_std_tolerance) ∨
        (infinitynorm (population_mean o.pop) ≠ 0 ∧
          N.sqrt (max_param_variance o.covariance) / infinitynorm (population_mean o.pop)
            < o.param_std_tolerance) ∨
        (o.pop.length > 1 ∧ N.relative_fitness_std o.pop < o.fitness_std_tolerance) ∨
        o.multiplier < 1e-10)) ∧
    (0 ≤ max_param_variance o.covariance ∧
      (∀ i, i < o.covariance.length → o.covariance.entry i i ≤ max_param_variance o.covariance) ∧
      (max_param_variance o.covariance = 0 ∨
        ∃ i, i < o.covariance.length ∧
          max_param_variance o.covariance = o.covariance.entry i i)) := by
  have hq := fdiv_lt_iff (N.sqrt (max_param_variance o.covariance))
    (infinitynorm (population_mean o.pop)) o.param_std_tolerance
    (hsqrt _ (max_param_variance_spec o.covariance).1)
  refine ⟨?_, ?_, ?_, ?_, ?_, max_param_variance_spec o.covariance⟩
  · rw [checkTerminationCondition_eq]
    split_ifs <;> rfl
  · rw [checkTerminationCondition_eq]
    split_ifs <;> rfl
  · intro h0
    rw [checkTerminationCondition_eq, if_pos h0]
  · intro hg h1
    have h0 : o.number_of_generations ≠ 0 := by omega
    rw [checkTerminationCondition_eq, if_neg h0, if_pos h1]
  · intro hg h1
    have h0 : o.number_of_generations ≠ 0 := by omega
    rw [checkTerminationCondition_eq, if_neg h0, if_neg h1, ← hq]
    split_ifs with hc
    · simp only [true_iff]
      exact hc
    · simp only [Bool.true_eq_false, false_iff]
      exact hc

/-- Witness of `checkTerminationCondition_decision_table`: the default instance at
generation 1 with one solution at 1 stays active. -/
theorem checkTerminationCondition_decision_table_witness :
    ((example_instance [example_solution [1] 0 0]
        (example_solution [1] 0 0)).checkTerminationCondition example_numerics).2
      = !((example_instance [example_solution [1] 0 0]
        (example_solution [1] 0 0)).checkTerminationCondition example_numerics).1.active :=
  (checkTerminationCondition_decision_table example_numerics
    (example_instance [example_solution [1] 0 0] (example_solution [1] 0 0))
    (fun x _ => Rat.sqrt_nonneg x)).1

/-- C7 fails on the code: at generation 1 with the two solutions -1 and 1, whose mean is 0,
and covariance 1, the call evaluates `sqrt(max_param_variance) / mean.infinitynorm()` with a
zero divisor (the guarded division has no result); the quotient is `+inf`, the comparison
with `param_std_tolerance` is false and the instance stays active. -/
theorem checkTerminationCondition_divides_by_zero :
    (example_instance [example_solution [-1] 0 0, example_solution [1] 0 0]
        (example_solution [1] 0 0)).checkTerminationCondition_quotients example_numerics
      = none ∧
    (example_instance [example_solution [-1] 0 0, example_solution [1] 0 0]
        (example_solution [1] 0 0)).parameter_std_quotient example_numerics
      = quotient_t.pos_inf ∧
    ((example_instance [example_solution [-1] 0 0, example_solution [1] 0 0]
        (example_solution [1] 0 0)).checkTerminationCondition example_numerics).2 = false := by
  refine ⟨?_, ?_, ?_⟩
  · norm_num [amalgam_univariate_t.checkTerminationCondition_quotients, example_instance,
      example_solution, population_mean, infinitynorm, vec_scale, vec_add]
  · norm_num [amalgam_univariate_t.parameter_std_quotient, example_instance,
      example_solution, example_numerics, population_mean, infinitynorm, vec_scale, vec_add,
      max_param_variance, matrix_t.entry, fdiv, List.range, List.range.loop, Rat.sqrt]
  · rw [checkTerminationCondition_eq]
    norm_num [example_instance, example_solution, example_numerics, population_mean,
      infinitynorm, vec_scale, vec_add, max_param_variance, matrix_t.entry, fdiv,
      quotient_t.lt, List.range, List.range.loop, Rat.sqrt]

/-! The anticipated mean shift: `apply_ams_to_population` -/

/-- A repaired sample is within bounds when the bounds are ordered component-wise. -/
theorem boundary_repair_in_range (sample lower upper : vec_t)
    (hb : List.Forall₂ (fun l u => l ≤ u) lower upper) :
    in_range (boundary_repair sample lower upper).1 lower upper = true := by
  induction hb generalizing sample with
  | nil => cases sample <;> simp [boundary_repair, in_range]
  | @cons l u ls us hlu _ ih =>
    cases sample with
    | nil => simp [boundary_repair, in_range]
    | cons x xs =>
      simp only [boundary_repair]
      split_ifs with h1 h2
      · simp [in_range, hlu, ih xs]
      · simp [in_range, hlu, ih xs]
      · simp [in_range, not_lt.mp h1, not_lt.mp h2, ih xs]

/-- When the shrink loop is given `100 - attempts` iterations or more and stops with fewer
than 100 attempts, the candidate it stops at is within bounds. -/
theorem ams_shrink_loop_in_range (lower upper : vec_t) (ams_factor : ℚ) (ams_direction : vec_t)
    (fuel attempts : Nat) (shrink_factor : ℚ) (ams_params : vec_t)
    (hfuel : 100 ≤ fuel + attempts)
    (hlt : (ams_shrink_loop lower upper ams_factor ams_direction fuel
      (attempts, shrink_factor, ams_params)).1 < 100) :
    in_range (ams_shrink_loop lower upper ams_factor ams_direction fuel
      (attempts, shrink_factor, ams_params)).2.2 lower upper = true := by
  induction fuel generalizing attempts shrink_factor ams_params with
  | zero =>
    simp only [ams_shrink_loop] at hlt
    omega
  | succ n ih =>
    simp only [ams_shrink_loop] at hlt ⊢
    split_ifs at hlt ⊢ with hc
    · exact ih _ _ _ (by omega) hlt
    · simp only [not_and_or, not_lt, Bool.not_eq_false] at hc
      rcases hc with hc | hc
      · simp only at hlt
        omega
      · exact hc

/-- One step of the loop keeps the number of solutions. -/
theorem apply_ams_step_length (o : amalgam_univariate_t) (ams_factor : ℚ)
    (ams_direction : vec_t) (st : List solution_t × Nat) (i : Nat) :
    (o.apply_ams_step ams_factor ams_direction st i).1.length = st.1.length := by
  unfold amalgam_univariate_t.apply_ams_step
  split
  · rfl
  · simp only []
    split_ifs <;> simp

/-- One step of the loop leaves every solution but the one at its index untouched. -/
theorem apply_ams_step_getElem_ne (o : amalgam_univariate_t) (ams_factor : ℚ)
    (ams_direction : vec_t) (st : List solution_t × Nat) (i j : Nat) (hij : i ≠ j) :
    (o.apply_ams_step ams_factor ams_direction st i).1[j]? = st.1[j]? := by
  unfold amalgam_univariate_t.apply_ams_step
  split
  · rfl
  · simp only []
    split_ifs <;> simp [List.getElem?_set_ne hij]

/-- One step of the loop leaves the solution at its index within bounds, when the bounds are
ordered component-wise. -/
theorem apply_ams_step_in_range (o : amalgam_univariate_t) (ams_factor : ℚ)
    (ams_direction : vec_t) (st : List solution_t × Nat) (i : Nat)
    (hb : List.Forall₂ (fun l u => l ≤ u) o.lower_param_bounds o.upper_param_bounds)
    (hi : i < st.1.length) :
    ∃ sol, (o.apply_ams_step ams_factor ams_direction st i).1[i]? = some sol ∧
      in_range sol.param o.lower_param_bounds o.upper_param_bounds = true := by
  unfold amalgam_univariate_t.apply_ams_step
  have hget : st.1[i]? = some (st.1[i]) := List.getElem?_eq_getElem hi
  rw [hget]
  simp only []
  split_ifs with hlt
  · refine ⟨_, by rw [List.getElem?_set_eq_of_lt _ hi], ?_⟩
    exact ams_shrink_loop_in_range _ _ _ _ _ _ _ _ (by omega) hlt
  · refine ⟨_, by rw [List.getElem?_set_eq_of_lt _ hi], ?_⟩
    exact boundary_repair_in_range _ _ _ hb

/-- The loop leaves every solution whose index it does not visit untouched. -/
theorem apply_ams_foldl_getElem_not_mem (o : amalgam_univariate_t) (ams_factor : ℚ)
    (ams_direction : vec_t) (L : List Nat) (st : List solution_t × Nat) (j : Nat)
    (hj : j ∉ L) :
    (L.foldl (o.apply_ams_step ams_factor ams_direction) st).1[j]? = st.1[j]? := by
  induction L generalizing st with
  | nil => rfl
  | cons x xs ih =>
    simp only [List.foldl_cons]
    rw [ih _ (fun h => hj (List.mem_cons_of_mem _ h))]
    exact apply_ams_step_getElem_ne o ams_factor ams_direction st x j
      (fun h => hj (h ▸ List.mem_cons_self _ _))

/-- The loop keeps the number of solutions. -/
theorem apply_ams_foldl_length (o : amalgam_univariate_t) (ams_factor : ℚ)
    (ams_direction : vec_t) (L : List Nat) (st : List solution_t × Nat) :
    (L.foldl (o.apply_ams_step ams_factor ams_direction) st).1.length = st.1.length := by
  induction L generalizing st with
  | nil => rfl
  | cons x xs ih =>
    simp only [List.foldl_cons]
    rw [ih, apply_ams_step_length]

/-- The loop leaves every solution whose index it visits within bounds, when the bounds are
ordered component-wise and no index is visited twice. -/
theorem apply_ams_foldl_in_range (o : amalgam_univariate_t) (ams_factor : ℚ)
    (ams_direction : vec_t)
    (hb : List.Forall₂ (fun l u => l ≤ u) o.lower_param_bounds o.upper_param_bounds)
    (L : List Nat) (hL : L.Nodup) (st : List solution_t × Nat) (i : Nat) (hi : i ∈ L)
    (hlen : i < st.1.length) :
    ∃ sol, (L.foldl (o.apply_ams_step ams_factor ams_direction) st).1[i]? = some sol ∧
      in_range sol.param o.lower_param_bounds o.upper_param_bounds = true := by
  induction L generalizing st with
  | nil => cases hi
  | cons x xs ih =>
    simp only [List.foldl_cons]
    rw [List.nodup_cons] at hL
    rcases List.mem_cons.mp hi with rfl | hmem
    · rw [apply_ams_foldl_getElem_not_mem o ams_factor ams_direction xs _ i hL.1]
      exact apply_ams_step_in_range o ams_factor ams_direction st i hb hlen
    · exact ih hL.2 _ hmem (by rw [apply_ams_step_length]; exact hlen)

/-- The visited indices are `1, ..., min (number_of_ams_solutions + 1 mod 2^64) size - 1`. -/
theorem mem_ams_indices (number_of_ams_solutions size i : Nat) :
    i ∈ ams_indices number_of_ams_solutions size ↔
      1 ≤ i ∧ i < min ((number_of_ams_solutions + 1) % 2 ^ 64) size := by
  unfold ams_indices
  rw [List.mem_range'_1]
  omega

/-- C2: with bounds ordered component-wise, if every point of the population is within
bounds before `apply_ams_to_population` then every point is within bounds after it; and
every AMS-selected solution (index `1 ≤ i ≤ min number_of_ams_solutions (size - 1)`, the
`size_t` sum `number_of_ams_solutions + 1` not wrapping) is within bounds after the call,
whether or not it was before. -/
theorem apply_ams_to_population_in_range (o : amalgam_univariate_t)
    (number_of_ams_solutions : Nat) (ams_factor : ℚ) (ams_direction : vec_t)
    (hb : List.Forall₂ (fun l u => l ≤ u) o.lower_param_bounds o.upper_param_bounds) :
    ((∀ s ∈ o.pop, in_range s.param o.lower_param_bounds o.upper_param_bounds = true) →
      ∀ s ∈ (o.apply_ams_to_population number_of_ams_solutions ams_factor ams_direction).pop,
        in_range s.param o.lower_param_bounds o.upper_param_bounds = true) ∧
    (number_of_ams_solutions + 1 < 2 ^ 64 →
      ∀ i, 1 ≤ i → i ≤ min number_of_ams_solutions (o.pop.length - 1) →
        ∃ s, (o.apply_ams_to_population number_of_ams_solutions ams_factor
            ams_direction).pop[i]? = some s ∧
          in_range s.param o.lower_param_bounds o.upper_param_bounds = true) := by
  have hnodup : (ams_indices number_of_ams_solutions o.pop.length).Nodup :=
    List.nodup_range' _ _
  constructor
  · intro hall s hs
    obtain ⟨j, hj⟩ := List.mem_iff_getElem?.mp hs
    simp only [amalgam_univariate_t.apply_ams_to_population] at hj
    by_cases hmem : j ∈ ams_indices number_of_ams_solutions o.pop.length
    · have hlen : j < o.pop.length := by
        rw [mem_ams_indices] at hmem
        omega
      obtain ⟨sol, hsol, hr⟩ := apply_ams_foldl_in_range o ams_factor ams_direction hb
        (ams_indices number_of_ams_solutions o.pop.length) hnodup (o.pop, 0) j hmem hlen
      rw [hsol] at hj
      cases hj
      exact hr
    · rw [apply_ams_foldl_getElem_not_mem o ams_factor ams_direction _ _ j hmem] at hj
      exact hall s (List.mem_iff_getElem?.mpr ⟨j, hj⟩)
  · intro hn i h1 hi
    have hmem : i ∈ ams_indices number_of_ams_solutions o.pop.length := by
      rw [mem_ams_indices, Nat.mod_eq_of_lt hn]
      omega
    have hlen : i < o.pop.length := by omega
    exact apply_ams_foldl_in_range o ams_factor ams_direction hb
      (ams_indices number_of_ams_solutions o.pop.length) hnodup (o.pop, 0) i hmem hlen

/-- C3: `apply_ams_to_population` never moves the elite: the solution at index 0 is unchanged
by the call, and so is every solution at an index greater than `number_of_ams_solutions`;
the number of solutions is unchanged as well. -/
theorem apply_ams_to_population_frame (o : amalgam_univariate_t)
    (number_of_ams_solutions : Nat) (ams_factor : ℚ) (ams_direction : vec_t) :
    (o.apply_ams_to_population number_of_ams_solutions ams_factor ams_direction).pop[0]?
      = o.pop[0]? ∧
    (∀ j, number_of_ams_solutions < j →
      (o.apply_ams_to_population number_of_ams_solutions ams_factor ams_direction).pop[j]?
        = o.pop[j]?) ∧
    (o.apply_ams_to_population number_of_ams_solutions ams_factor ams_direction).pop.length
      = o.pop.length := by
  refine ⟨?_, ?_, ?_⟩
  · simp only [amalgam_univariate_t.apply_ams_to_population]
    apply apply_ams_foldl_getElem_not_mem
    rw [mem_ams_indices]
    omega
  · intro j hj
    simp only [amalgam_univariate_t.apply_ams_to_population]
    apply apply_ams_foldl_getElem_not_mem
    rw [mem_ams_indices]
    have hmod : (number_of_ams_solutions + 1) % 2 ^ 64 ≤ number_of_ams_solutions + 1 :=
      Nat.mod_le _ _
    omega
  · simp only [amalgam_univariate_t.apply_ams_to_population]
    exact apply_ams_foldl_length o ams_factor ams_direction _ _

/-- Witness of `apply_ams_to_population_in_range`: the solution at index 1 starts outside
the bounds `[-3, 3]`. -/
theorem apply_ams_to_population_in_range_witness :
    ∃ s, ((example_instance
        [example_solution [0] 0 0, example_solution [5] 0 0, example_solution [1] 0 0]
        (example_solution [0] 0 0)).apply_ams_to_population 1 1 [1]).pop[1]? = some s ∧
      in_range s.param [-3] [3] = true :=
  (apply_ams_to_population_in_range
    (example_instance
      [example_solution [0] 0 0, example_solution [5] 0 0, example_solution [1] 0 0]
      (example_solution [0] 0 0)) 1 1 [1]
    (List.Forall₂.cons (by norm_num) List.Forall₂.nil)).2 (by norm_num) 1 (le_refl 1)
    (by simp [example_instance])

/-- Witness of `apply_ams_to_population_frame`: with one AMS solution the solution at index 2
is untouched. -/
theorem apply_ams_to_population_frame_witness :
    ((example_instance
        [example_solution [0] 0 0, example_solution [5] 0 0, example_solution [1] 0 0]
        (example_solution [0] 0 0)).apply_ams_to_population 1 1 [1]).pop[2]?
      = (example_instance
        [example_solution [0] 0 0, example_solution [5] 0 0, example_solution [1] 0 0]
        (example_solution [0] 0 0)).pop[2]? :=
  (apply_ams_to_population_frame
    (example_instance
      [example_solution [0] 0 0, example_solution [5] 0 0, example_solution [1] 0 0]
      (example_solution [0] 0 0)) 1 1 [1]).2.1 2 (by norm_num)


/-! The adaptation controller without improvement, and its invariant -/

/-- C11: with `improvement = false`, `m'` the input multiplier (halved first when
`sample_success_ratio < 0.10`) and `s` the input stretch: the resulting stretch is `s + 1`
if `m' ≤ 1.0` and `s` otherwise; the multiplier is multiplied by
`distribution_multiplier_decrease` exactly when `m' > 1.0` or the resulting stretch is at
least `maximum_no_improvement_stretch`; afterwards it is reset to 1.0 exactly when it is
below 1.0 and the resulting stretch is below the maximum.  In particular, from multiplier
1.0 with `s + 1` below the maximum and a ratio of at least 0.10 the multiplier stays 1.0 and
the stretch grows by exactly 1. -/
theorem update_distribution_multiplier_no_improvement (o : amalgam_univariate_t)
    (multiplier no_improvement_stretch sample_success_ratio sdr : ℚ) :
    (∀ m' s' m'' : ℚ,
      m' = (if sample_success_ratio < 0.10 then multiplier / 2 else multiplier) →
      s' = (if m' ≤ 1 then no_improvement_stretch + 1 else no_improvement_stretch) →
      m'' = (if m' > 1 ∨ s' ≥ (o.maximum_no_improvement_stretch : ℚ) then
              m' * o.distribution_multiplier_decrease else m') →
      o.update_distribution_multiplier multiplier false no_improvement_stretch
          sample_success_ratio sdr
        = (if m'' < 1 ∧ s' < (o.maximum_no_improvement_stretch : ℚ) then 1 else m'', s')) ∧
    (multiplier = 1 → no_improvement_stretch + 1 < (o.maximum_no_improvement_stretch : ℚ) →
      0.10 ≤ sample_success_ratio →
      o.update_distribution_multiplier multiplier false no_improvement_stretch
          sample_success_ratio sdr
        = (1, no_improvement_stretch + 1)) := by
  have hm : multiplier * 0.5 = multiplier / 2 := by norm_num; ring
  have h10 : (1.0 : ℚ) = 1 := by norm_num
  constructor
  · intro m' s' m'' hm' hs' hm''
    simp only [amalgam_univariate_t.update_distribution_multiplier, Bool.false_eq_true,
      if_false, hm, h10, ← hm', ← hs', ← hm'']
  · intro h1 hs hr
    subst h1
    have hr' : ¬ sample_success_ratio < 1 / 10 := by
      norm_num at hr
      exact not_lt.mpr hr
    norm_num [amalgam_univariate_t.update_distribution_multiplier, hr', not_le.mpr hs]

/-- Witness of `update_distribution_multiplier_no_improvement`: the default instance (maximum
stretch 26) at multiplier 1, stretch 3 and ratio 0.5. -/
theorem update_distribution_multiplier_no_improvement_witness :
    (example_instance [] (example_solution [0] 0 0)).update_distribution_multiplier
        1 false 3 0.5 0 = (1, 3 + 1) :=
  (update_distribution_multiplier_no_improvement
    (example_instance [] (example_solution [0] 0 0)) 1 3 0.5 0).2 rfl
    (by norm_num [example_instance]) (by norm_num)

/-- C12: positivity is an invariant of the adaptation controller: from `multiplier > 0`,
`no_improvement_stretch ≥ 0` and `distribution_multiplier_decrease > 0`,
`update_distribution_multiplier` returns `multiplier > 0` and `no_improvement_stretch ≥ 0`,
for every improvement flag, sample success ratio and sdr; and
`initialize_from_population` establishes it with multiplier 1.0 and stretch 0. -/
theorem update_distribution_multiplier_positive (o : amalgam_univariate_t)
    (multiplier : ℚ) (improvement : Bool) (no_improvement_stretch sample_success_ratio sdr : ℚ)
    (hm : 0 < multiplier) (hs : 0 ≤ no_improvement_stretch)
    (hd : 0 < o.distribution_multiplier_decrease) :
    (0 < (o.update_distribution_multiplier multiplier improvement no_improvement_stretch
        sample_success_ratio sdr).1 ∧
      0 ≤ (o.update_distribution_multiplier multiplier improvement no_improvement_stretch
        sample_success_ratio sdr).2) ∧
    (∀ (E : collaborators_t) (pop : List solution_t),
      (o.initialize_from_population E pop).multiplier = 1 ∧
      (o.initialize_from_population E pop).no_improvement_stretch = 0) := by
  have h10 : (1.0 : ℚ) = 1 := by norm_num
  have h00 : (0.0 : ℚ) = 0 := by norm_num
  have h05 : (0.5 : ℚ) = 1 / 2 := by norm_num
  refine ⟨?_, ?_⟩
  · obtain ⟨m', hm', hpos⟩ : ∃ m' : ℚ,
        m' = (if sample_success_ratio < 0.10 then multiplier * 0.5 else multiplier) ∧ 0 < m' := by
      refine ⟨_, rfl, ?_⟩
      split_ifs
      · rw [h05]; linarith
      · exact hm
    cases improvement with
    | true =>
      simp only [amalgam_univariate_t.update_distribution_multiplier, if_true, ← hm', h10, h00]
      constructor
      · obtain ⟨F, hF, hFpos⟩ : ∃ F : ℚ, F = (if m' < 1 then (1 : ℚ) else m') ∧ 0 < F := by
          refine ⟨_, rfl, ?_⟩
          split_ifs
          · exact zero_lt_one
          · exact hpos
        rw [← hF]
        split_ifs
        · exact div_pos hFpos hd
        · exact hFpos
      · exact le_refl _
    | false =>
      simp only [amalgam_univariate_t.update_distribution_multiplier, Bool.false_eq_true,
        if_false, ← hm', h10]
      constructor
      · split_ifs <;> first | exact zero_lt_one | exact hpos | exact mul_pos hpos hd
      · split_ifs <;> linarith
  · intro E pop
    constructor
    · norm_num [amalgam_univariate_t.initialize_from_population]
    · simp [amalgam_univariate_t.initialize_from_population]

/-- Witness of `update_distribution_multiplier_positive`: the default instance at multiplier
1/4, without improvement, with the stretch at its maximum 26. -/
theorem update_distribution_multiplier_positive_witness :
    0 < ((example_instance [] (example_solution [0] 0 0)).update_distribution_multiplier
        (1 / 4) false 26 0.05 0).1 ∧
    0 ≤ ((example_instance [] (example_solution [0] 0 0)).update_distribution_multiplier
        (1 / 4) false 26 0.05 0).2 :=
  (update_distribution_multiplier_positive (example_instance [] (example_solution [0] 0 0))
    (1 / 4) false 26 0.05 0 (by norm_num) (by norm_num) (by norm_num [example_instance])).1

/-! The distribution estimator: `estimate_sample_parameters` -/

/-- Entry `(i, j)` of a square matrix given by its entries. -/
theorem entry_of_table (n : Nat) (g : Nat → Nat → ℚ) (i j : Nat) :
    matrix_t.entry ((List.range n).map (fun i => (List.range n).map (fun j => g i j))) i j
      = if i < n ∧ j < n then g i j else 0 := by
  unfold matrix_t.entry
  by_cases hi : i < n
  · have hri : (List.range n)[i]? = some i := by
      rw [List.getElem?_eq_getElem (by simpa using hi)]
      simp
    by_cases hj : j < n
    · have hrj : (List.range n)[j]? = some j := by
        rw [List.getElem?_eq_getElem (by simpa using hj)]
        simp
      simp [List.getD_eq_getElem?_getD, hri, hrj, hi, hj]
    · have hrj : (List.range n)[j]? = none :=
        List.getElem?_eq_none (by simpa using hj)
      simp [List.getD_eq_getElem?_getD, hri, hrj, hj]
  · have hri : (List.range n)[i]? = none :=
      List.getElem?_eq_none (by simpa using hi)
    simp [List.getD_eq_getElem?_getD, hri, hi]

/-- Entries of a matrix multiplied by a scalar. -/
theorem entry_matrix_multiply (m : matrix_t) (c : ℚ) (i j : Nat) :
    (matrix_multiply m c).entry i j = m.entry i j * c := by
  unfold matrix_t.entry matrix_multiply
  simp only [List.getD_eq_getElem?_getD, List.getElem?_map]
  cases h : m[i]? with
  | none => simp
  | some row =>
    simp only [Option.map_some', Option.getD_some, List.getElem?_map]
    cases h2 : row[j]? with
    | none => simp
    | some x => simp

/-- The diagonal of the univariate sample covariance is non-negative. -/
theorem covariance_univariate_diag_nonneg (pop : List solution_t) (mean : vec_t) (i : Nat) :
    0 ≤ (covariance_univariate pop mean).entry i i := by
  unfold covariance_univariate
  rw [entry_of_table]
  simp only [eq_self_iff_true, if_true]
  split_ifs
  · apply div_nonneg
    · apply List.sum_nonneg
      intro x hx
      obtain ⟨s, _, rfl⟩ := List.mem_map.mp hx
      exact sq_nonneg _
    · exact Nat.cast_nonneg _
  · exact le_refl _

/-- C19: for a non-empty population, after `estimate_sample_parameters` the field `old_mean`
is the mean held before the call, and `mean` is the parameter vector of the first solution
of the population if `multiplier < 1.0` and the arithmetic mean of the population otherwise;
at `multiplier = 1.0` it is the arithmetic mean. -/
theorem estimate_sample_parameters_mean (N : numerics_t) (o : amalgam_univariate_t)
    (first : solution_t) (rest : List solution_t) (hpop : o.pop = first :: rest) :
    (o.estimate_sample_parameters N).old_mean = o.mean ∧
    (o.estimate_sample_parameters N).mean
      = (if o.multiplier < 1 then first.param else population_mean o.pop) ∧
    (o.multiplier = 1 → (o.estimate_sample_parameters N).mean = population_mean o.pop) := by
  have h10 : (1.0 : ℚ) = 1 := by norm_num
  refine ⟨rfl, ?_, ?_⟩
  · simp only [amalgam_univariate_t.estimate_sample_parameters, hpop, h10, List.head?_cons,
      Option.map_some', Option.getD_some]
  · intro h1
    simp only [amalgam_univariate_t.estimate_sample_parameters, h10, h1, lt_irrefl, if_false]

/-- Witness of `estimate_sample_parameters_mean`: the default instance (multiplier 1) with
the solutions -1 and 1. -/
theorem estimate_sample_parameters_mean_witness :
    ((example_instance [example_solution [-1] 0 0, example_solution [1] 0 0]
        (example_solution [1] 0 0)).estimate_sample_parameters example_numerics).mean
      = population_mean (example_instance [example_solution [-1] 0 0, example_solution [1] 0 0]
        (example_solution [1] 0 0)).pop :=
  (estimate_sample_parameters_mean example_numerics
    (example_instance [example_solution [-1] 0 0, example_solution [1] 0 0]
      (example_solution [1] 0 0))
    (example_solution [-1] 0 0) [example_solution [1] 0 0] rfl).2.2 rfl

/-- Adding parameter vectors of dimension `d` to a vector of dimension `d` keeps the
dimension. -/
theorem param_sum_length (d : Nat) (rest : List solution_t) (acc : vec_t)
    (hacc : acc.length = d) (hrest : ∀ t ∈ rest, t.param.length = d) :
    (rest.foldl (fun acc t => vec_add acc t.param) acc).length = d := by
  induction rest generalizing acc with
  | nil => exact hacc
  | cons t ts ih =>
    simp only [List.foldl_cons]
    apply ih
    · unfold vec_add
      rw [List.length_zipWith, hacc, hrest t (List.mem_cons_self t ts), min_self]
    · intro u hu
      exact hrest u (List.mem_cons_of_mem t hu)

/-- The mean of a non-empty population of parameter vectors of dimension `d` has dimension
`d`. -/
theorem population_mean_length (d : Nat) (pop : List solution_t) (hpop : pop ≠ [])
    (hdim : ∀ s ∈ pop, s.param.length = d) : (population_mean pop).length = d := by
  cases pop with
  | nil => exact absurd rfl hpop
  | cons s rest =>
    simp only [population_mean, vec_scale, List.length_map]
    exact param_sum_length d rest s.param (hdim s (List.mem_cons_self s rest))
      (fun t ht => hdim t (List.mem_cons_of_mem s ht))

/-- C13: for a population of at least two solutions of dimension `d`, after
`estimate_sample_parameters` the mean has dimension `d` and `covariance` and `cholesky` have
`d` rows; entry `(i, i)` of `covariance` is the mean of the squared deviations of component
`i` from the new mean, hence non-negative, and its other entries are 0; `cholesky` is
diagonal with `cholesky[i][i] = sqrt(covariance[i][i]) * sqrt(multiplier)` in every
dimension `i < d`, which is `sqrt(covariance[i][i] * multiplier)` when the square root is
exact on these values; and `multiplier` is unchanged. -/
theorem estimate_sample_parameters_cholesky (N : numerics_t) (o : amalgam_univariate_t)
    (d : Nat) (hsize : 2 ≤ o.pop.length) (hdim : ∀ s ∈ o.pop, s.param.length = d) :
    (o.estimate_sample_parameters N).mean.length = d ∧
    (o.estimate_sample_parameters N).covariance.length = d ∧
    (o.estimate_sample_parameters N).cholesky.length = d ∧
    (∀ i j, i < d → j < d →
      (o.estimate_sample_parameters N).covariance.entry i j
        = if i = j then
            (o.pop.map (fun s =>
              (s.param.getD i 0 - (o.estimate_sample_parameters N).mean.getD i 0) ^ 2)).sum
              / (o.pop.length : ℚ)
          else 0) ∧
    (∀ i, 0 ≤ (o.estimate_sample_parameters N).covariance.entry i i) ∧
    (∀ i j, i ≠ j → (o.estimate_sample_parameters N).cholesky.entry i j = 0) ∧
    (∀ i, i < d →
      (o.estimate_sample_parameters N).cholesky.entry i i
        = N.sqrt ((o.estimate_sample_parameters N).covariance.entry i i)
            * N.sqrt o.multiplier) ∧
    ((∀ i, i < d →
        N.sqrt ((o.estimate_sample_parameters N).covariance.entry i i * o.multiplier)
          = N.sqrt ((o.estimate_sample_parameters N).covariance.entry i i)
              * N.sqrt o.multiplier) →
      ∀ i, i < d →
        (o.estimate_sample_parameters N).cholesky.entry i i
          = N.sqrt ((o.estimate_sample_parameters N).covariance.entry i i * o.multiplier)) ∧
    (o.estimate_sample_parameters N).multiplier = o.multiplier := by
  have h1 : ¬ o.pop.length = 1 := by omega
  have hpop : o.pop ≠ [] := by
    intro h
    rw [h] at hsize
    simp at hsize
  have hmlen : (o.estimate_sample_parameters N).mean.length = d := by
    simp only [amalgam_univariate_t.estimate_sample_parameters]
    split_ifs
    · cases hp : o.pop with
      | nil => exact absurd hp hpop
      | cons s rest =>
        simp only [List.head?_cons, Option.map_some', Option.getD_some]
        exact hdim s (by rw [hp]; exact List.mem_cons_self s rest)
    · exact population_mean_length d o.pop hpop hdim
  have hcov : (o.estimate_sample_parameters N).covariance
      = covariance_univariate o.pop (o.estimate_sample_parameters N).mean := by
    simp only [amalgam_univariate_t.estimate_sample_parameters, h1, if_false]
  have hclen : (o.estimate_sample_parameters N).covariance.length = d := by
    rw [hcov]
    simp only [covariance_univariate, List.length_map, List.length_range]
    exact hmlen
  have hchol : (o.estimate_sample_parameters N).cholesky
      = matrix_multiply
          (choleskyDecomposition_univariate N (o.estimate_sample_parameters N).covariance)
          (N.sqrt o.multiplier) := rfl
  have hchlen : (o.estimate_sample_parameters N).cholesky.length = d := by
    rw [hchol]
    simp only [matrix_multiply, choleskyDecomposition_univariate, List.length_map,
      List.length_range]
    exact hclen
  have hdiag : ∀ i, i < d →
      (o.estimate_sample_parameters N).cholesky.entry i i
        = N.sqrt ((o.estimate_sample_parameters N).covariance.entry i i)
            * N.sqrt o.multiplier := by
    intro i hi
    rw [hchol, entry_matrix_multiply]
    unfold choleskyDecomposition_univariate
    rw [entry_of_table, hclen, if_pos ⟨hi, hi⟩, if_pos rfl]
  refine ⟨hmlen, hclen, hchlen, ?_, ?_, ?_, hdiag, ?_, rfl⟩
  · intro i j hi hj
    rw [hcov]
    unfold covariance_univariate
    rw [entry_of_table, hmlen, if_pos ⟨hi, hj⟩]
  · intro i
    rw [hcov]
    exact covariance_univariate_diag_nonneg o.pop _ i
  · intro i j hij
    rw [hchol, entry_matrix_multiply]
    unfold choleskyDecomposition_univariate
    rw [entry_of_table]
    split_ifs <;> simp
  · intro hsqrt i hi
    rw [hdiag i hi, hsqrt i hi]

/-- Witness of `estimate_sample_parameters_cholesky`: the default instance (multiplier 1)
with the one-dimensional solutions -1 and 1, whose covariance is 1, with the rational square
root. -/
theorem estimate_sample_parameters_cholesky_witness :
    ((example_instance [example_solution [-1] 0 0, example_solution [1] 0 0]
        (example_solution [1] 0 0)).estimate_sample_parameters
          example_numerics).cholesky.entry 0 0
      = example_numerics.sqrt
        (((example_instance [example_solution [-1] 0 0, example_solution [1] 0 0]
          (example_solution [1] 0 0)).estimate_sample_parameters
            example_numerics).covariance.entry 0 0
          * (example_instance [example_solution [-1] 0 0, example_solution [1] 0 0]
            (example_solution [1] 0 0)).multiplier) :=
  have hc : ((example_instance [example_solution [-1] 0 0, example_solution [1] 0 0]
      (example_solution [1] 0 0)).estimate_sample_parameters
        example_numerics).covariance = [[1]] := by
    norm_num [amalgam_univariate_t.estimate_sample_parameters, example_instance,
      example_solution, covariance_univariate, population_mean, vec_scale, vec_add,
      List.range, List.range.loop]
  (estimate_sample_parameters_cholesky example_numerics
    (example_instance [example_solution [-1] 0 0, example_solution [1] 0 0]
      (example_solution [1] 0 0)) 1
    (by simp [example_instance])
    (by
      intro s hs
      simp only [example_instance, List.mem_cons, List.mem_singleton, List.not_mem_nil,
        or_false] at hs
      rcases hs with rfl | rfl <;> rfl)).2.2.2.2.2.2.2.1
    (by
      intro i hi
      have hi0 : i = 0 := by omega
      subst hi0
      rw [hc]
      norm_num [matrix_t.entry, example_instance, example_numerics, Rat.sqrt])
    0 (by norm_num)

/-! The recommended population size: `recommended_popsize` -/

/-- The loop of `getSDR` advances the counter by the length of the leading run of solutions
with `f` below `best.f` and adds the parameters of exactly these solutions. -/
theorem getSDR_loop_eq (best : solution_t) (pop : List solution_t) (i : Nat)
    (average_params : vec_t) :
    getSDR_loop best pop (i, average_params)
      = (i + (pop.takeWhile (fun s => decide (s.f < best.f))).length,
          (pop.take (pop.takeWhile (fun s => decide (s.f < best.f))).length).foldl
            (fun acc s => vec_add acc s.param) average_params) := by
  induction pop generalizing i average_params with
  | nil => simp [getSDR_loop]
  | cons s rest ih =>
    by_cases h : s.f < best.f
    · simp only [getSDR_loop, h, if_true, ih, List.takeWhile_cons, decide_True,
        List.length_cons, List.take_succ_cons, List.foldl_cons]
      congr 1
      omega
    · simp [getSDR_loop, h, List.takeWhile_cons]

/-- C20: with `k` the length of the maximal leading run of population solutions whose `f` is
strictly below `best.f`, `getSDR` is 0 when `k = 0` (the empty population included) and
otherwise the infinity norm of `inverse_cholesky · (average of the first k parameter
vectors − mean)`; the result is never negative. -/
theorem getSDR_eq (o : amalgam_univariate_t) (best : solution_t) (mean : vec_t)
    (inverse_chol : matrix_t) :
    o.getSDR best mean inverse_chol
      = (if (o.pop.takeWhile (fun s => decide (s.f < best.f))).length = 0 then 0
          else infinitynorm (lowerProduct inverse_chol (vec_sub
            (((o.pop.take (o.pop.takeWhile (fun s => decide (s.f < best.f))).length).foldl
                (fun acc s => vec_add acc s.param)
                (List.replicate o.number_of_parameters 0)).map
              (fun x => x / ((o.pop.takeWhile (fun s => decide (s.f < best.f))).length : ℚ)))
            mean))) ∧
    0 ≤ o.getSDR best mean inverse_chol := by
  have h00 : (0.0 : ℚ) = 0 := by norm_num
  have heq : o.getSDR best mean inverse_chol
      = (if (o.pop.takeWhile (fun s => decide (s.f < best.f))).length = 0 then 0
          else infinitynorm (lowerProduct inverse_chol (vec_sub
            (((o.pop.take (o.pop.takeWhile (fun s => decide (s.f < best.f))).length).foldl
                (fun acc s => vec_add acc s.param)
                (List.replicate o.number_of_parameters 0)).map
              (fun x => x / ((o.pop.takeWhile (fun s => decide (s.f < best.f))).length : ℚ)))
            mean))) := by
    simp only [amalgam_univariate_t.getSDR, getSDR_loop_eq, h00, Nat.zero_add]
  refine ⟨heq, ?_⟩
  rw [heq]
  split_ifs
  · exact le_refl _
  · exact infinitynorm_nonneg _

/-! Cloning and one generation: `clone`, `sample_new_population` -/

/-- C15: `clone` is a value copy: the clone equals the original on every member of the
embedded state (mean, old_mean, covariance, cholesky, inverse_cholesky, multiplier,
no_improvement_stretch, best, active, number_of_generations, the population, the bounds and
every tunable), whatever the constructor left in the fresh instance; hence
`estimate_sample_parameters` followed by `sample_new_population` with the same sample size
and the same random draws gives the same result on the clone and on the original, in
particular the same mean, covariance and multiplier. -/
theorem clone_eq (E : collaborators_t) (o : amalgam_univariate_t) :
    o.clone E = o ∧
    (∀ (N : numerics_t) (sample_size : Nat) (rng : rng_t),
      (((o.clone E).estimate_sample_parameters N).sample_new_population E sample_size rng)
        = ((o.estimate_sample_parameters N).sample_new_population E sample_size rng)) ∧
    (∀ (N : numerics_t) (sample_size : Nat) (rng : rng_t),
      (((o.clone E).estimate_sample_parameters N).sample_new_population E sample_size rng).1.mean
        = ((o.estimate_sample_parameters N).sample_new_population E sample_size rng).1.mean ∧
      (((o.clone E).estimate_sample_parameters N).sample_new_population E sample_size
          rng).1.covariance
        = ((o.estimate_sample_parameters N).sample_new_population E sample_size
          rng).1.covariance ∧
      (((o.clone E).estimate_sample_parameters N).sample_new_population E sample_size
          rng).1.multiplier
        = ((o.estimate_sample_parameters N).sample_new_population E sample_size
          rng).1.multiplier) := by
  have h : o.clone E = o := by
    cases o
    rfl
  refine ⟨h, ?_, ?_⟩
  · intro N sample_size rng
    rw [h]
  · intro N sample_size rng
    rw [h]
    exact ⟨rfl, rfl, rfl⟩

/-- No solution is better than itself. -/
theorem better_solution_self (s : solution_t) : s.better_solution s = false := by
  unfold solution_t.better_solution
  split_ifs <;> simp

/-- The ordering reads only `f` and `penalty` of its first argument. -/
theorem better_solution_congr_left (a a' b : solution_t) (hf : a.f = a'.f)
    (hp : a.penalty = a'.penalty) : a.better_solution b = a'.better_solution b := by
  unfold solution_t.better_solution
  rw [hf, hp]

/-- The AMS stage of `sample_new_population` changes the population only and leaves the
solution in slot 0 as it is. -/
theorem sample_ams_frame (o : amalgam_univariate_t) (sample_size : Nat) :
    o.sample_ams sample_size = { o with pop := (o.sample_ams sample_size).pop } ∧
    (o.sample_ams sample_size).pop[0]? = o.pop[0]? := by
  unfold amalgam_univariate_t.sample_ams
  by_cases h : o.apply_ams = true
  · rw [if_pos h]
    refine ⟨rfl, ?_⟩
    simp only [amalgam_univariate_t.apply_ams_to_population]
    apply apply_ams_foldl_getElem_not_mem
    rw [mem_ams_indices]
    omega
  · rw [if_neg h]
    exact ⟨rfl, rfl⟩

/-! The shrink loop of the anticipated mean shift -/

/-- Taking back part of a shift leaves the shift by the difference of the factors. -/
theorem vec_sub_vec_add_scale (x d : vec_t) (a b : ℚ) :
    vec_sub (vec_add x (vec_scale a d)) (vec_scale b d) = vec_add x (vec_scale (a - b) d) := by
  unfold vec_sub vec_add vec_scale
  induction x generalizing d with
  | nil => simp
  | cons y ys ih =>
    cases d with
    | nil => simp
    | cons e es =>
      simp only [List.map_cons, List.zipWith_cons_cons, List.cons.injEq]
      exact ⟨by ring, ih es⟩

/-- While the candidates are out of range and the counter stays within its budget, `j`
iterations of the shrink loop lead from the candidate with shrink factor `s` to the candidate
with shrink factor `s * (1/2)^j`. -/
theorem ams_shrink_loop_prefix (lower upper : vec_t) (ams_factor : ℚ) (ams_direction x : vec_t)
    (j fuel attempts : Nat) (s : ℚ)
    (hbudget : attempts + j ≤ 100)
    (hout : ∀ k, k < j →
      in_range (ams_shift_spec x (s * (1 / 2) ^ k) ams_factor ams_direction) lower upper
        = false) :
    ams_shrink_loop lower upper ams_factor ams_direction (j + fuel)
        (attempts, s, ams_shift_spec x s ams_factor ams_direction)
      = ams_shrink_loop lower upper ams_factor ams_direction fuel
        (attempts + j, s * (1 / 2) ^ j,
          ams_shift_spec x (s * (1 / 2) ^ j) ams_factor ams_direction) := by
  induction j generalizing attempts s with
  | zero => simp
  | succ n ih =>
    have h0 : in_range (ams_shift_spec x s ams_factor ams_direction) lower upper = false := by
      have := hout 0 (Nat.succ_pos n)
      simpa using this
    have hlt : attempts < 100 := by omega
    have hstep : vec_sub (ams_shift_spec x s ams_factor ams_direction)
        (vec_scale (s * 0.5 * ams_factor) ams_direction)
        = ams_shift_spec x (s * 0.5) ams_factor ams_direction := by
      unfold ams_shift_spec
      rw [vec_sub_vec_add_scale]
      congr 2
      norm_num
      ring
    have h05 : (0.5 : ℚ) = 1 / 2 := by norm_num
    rw [show n + 1 + fuel = (n + fuel) + 1 by omega]
    simp only [ams_shrink_loop, hlt, h0, and_self, if_true, hstep]
    rw [ih (attempts + 1) (s * 0.5) (by omega)]
    · rw [h05, pow_succ]
      have e1 : attempts + 1 + n = attempts + (n + 1) := by omega
      have e2 : s * (1 / 2) * (1 / 2) ^ n = s * ((1 / 2) ^ n * (1 / 2)) := by ring
      rw [e1, e2]
    · intro k hk
      have := hout (k + 1) (by omega)
      rw [pow_succ] at this
      rw [h05]
      have e2 : s * (1 / 2) * (1 / 2) ^ k = s * ((1 / 2) ^ k * (1 / 2)) := by ring
      rw [e2]
      exact this

/-- The shrink loop stops at once on a candidate within bounds or an exhausted budget. -/
theorem ams_shrink_loop_stop (lower upper : vec_t) (ams_factor : ℚ) (ams_direction : vec_t)
    (fuel attempts : Nat) (s : ℚ) (p : vec_t)
    (h : 100 ≤ attempts ∨ in_range p lower upper = true) :
    ams_shrink_loop lower upper ams_factor ams_direction fuel (attempts, s, p)
      = (attempts, s, p) := by
  cases fuel with
  | zero => rfl
  | succ n =>
    have hc : ¬ (attempts < 100 ∧ in_range p lower upper = false) := by
      rintro ⟨h1, h2⟩
      rcases h with h | h
      · omega
      · rw [h] at h2
        cases h2
    simp only [ams_shrink_loop, hc, if_false]

/-- When the candidates of a solution are out of range for all of the first 100 halvings and
the counter starts at 0, the step leaves the repaired point and the counter at 100. -/
theorem apply_ams_step_exhausts (o : amalgam_univariate_t) (ams_factor : ℚ)
    (ams_direction : vec_t) (pop : List solution_t) (i : Nat) (x : solution_t)
    (hx : pop[i]? = some x)
    (hout : ∀ k, k < 100 →
      in_range (ams_shift_spec x.param (2 * (1 / 2) ^ k) ams_factor ams_direction)
        o.lower_param_bounds o.upper_param_bounds = false) :
    o.apply_ams_step ams_factor ams_direction (pop, 0) i
      = (pop.set i { x with
            param := (boundary_repair x.param o.lower_param_bounds
              o.upper_param_bounds).1 }, 100) := by
  have hloop : ams_shrink_loop o.lower_param_bounds o.upper_param_bounds ams_factor
      ams_direction (100 - 0)
      (0, 2, vec_add x.param (vec_scale (2 * ams_factor) ams_direction))
      = (100, 2 * (1 / 2) ^ 100,
          ams_shift_spec x.param (2 * (1 / 2) ^ 100) ams_factor ams_direction) := by
    have h := ams_shrink_loop_prefix o.lower_param_bounds o.upper_param_bounds ams_factor
      ams_direction x.param 100 0 0 2 (by omega) hout
    exact h.trans (ams_shrink_loop_stop _ _ _ _ 0 _ _ _ (Or.inl (by omega)))
  simp only [amalgam_univariate_t.apply_ams_step, hx, hloop, lt_irrefl, if_false]

/-- Once the counter has reached 100 the step leaves the repaired point, whatever the shifted
point is. -/
theorem apply_ams_step_spent (o : amalgam_univariate_t) (ams_factor : ℚ)
    (ams_direction : vec_t) (pop : List solution_t) (i : Nat) (x : solution_t)
    (hx : pop[i]? = some x) :
    o.apply_ams_step ams_factor ams_direction (pop, 100) i
      = (pop.set i { x with
            param := (boundary_repair x.param o.lower_param_bounds
              o.upper_param_bounds).1 }, 100) := by
  simp only [amalgam_univariate_t.apply_ams_step, hx, Nat.sub_self, ams_shrink_loop,
    lt_irrefl, if_false]

/-- C17 fails on the code: the counter `attempts` is shared by all solutions of one call.
With the bounds `[-3, 0]`, `ams_factor = 1`, `ams_direction = [1]` and the population
-1, 0, -2, the solution at index 1 lies on the upper bound 0: its candidates `2^(1-j)` are
positive for all 100 halvings (they are powers of two, exact in `double` as well) and use up
all 100 attempts; the fully shifted point of the solution at index 2, `-2 + 2 · 1 · 1 = 0`,
is within bounds, and yet the solution keeps its param -2. -/
theorem apply_ams_to_population_shared_attempts :
    in_range (ams_shift_spec [-2] 2 1 [1]) [-3] [0] = true ∧
    ams_shift_spec [-2] 2 1 [1] = [0] ∧
    (({ example_instance
          [example_solution [-1] 0 0, example_solution [0] 0 0, example_solution [-2] 0 0]
          (example_solution [-1] 0 0) with
        upper_param_bounds := [0] }).apply_ams_to_population 2 1 [1]).pop[2]?
      = some (example_solution [-2] 0 0) := by
  refine ⟨?_, ?_, ?_⟩
  · norm_num [ams_shift_spec, vec_add, vec_scale, in_range]
  · norm_num [ams_shift_spec, vec_add, vec_scale]
  · have hidx : ams_indices 2
        ({ example_instance
            [example_solution [-1] 0 0, example_solution [0] 0 0, example_solution [-2] 0 0]
            (example_solution [-1] 0 0) with
          upper_param_bounds := [0] }).pop.length = [1, 2] := by
      simp [ams_indices, example_instance, List.range']
    have hout : ∀ k, k < 100 →
        in_range (ams_shift_spec (example_solution [0] 0 0).param (2 * (1 / 2) ^ k) 1 [1])
          ({ example_instance
              [example_solution [-1] 0 0, example_solution [0] 0 0, example_solution [-2] 0 0]
              (example_solution [-1] 0 0) with
            upper_param_bounds := [0] }).lower_param_bounds
          ({ example_instance
              [example_solution [-1] 0 0, example_solution [0] 0 0, example_solution [-2] 0 0]
              (example_solution [-1] 0 0) with
            upper_param_bounds := [0] }).upper_param_bounds = false := by
      intro k _
      have hpos : (0 : ℚ) < (1 / 2) ^ k := by positivity
      simp only [ams_shift_spec, example_solution, example_instance, vec_add, vec_scale,
        List.map_cons, List.map_nil, List.zipWith_cons_cons, List.zipWith_nil_right, in_range,
        Bool.and_true, Bool.and_eq_false_imp, decide_eq_true_eq, decide_eq_false_iff_not,
        not_le]
      intro _
      linarith
    simp only [amalgam_univariate_t.apply_ams_to_population, hidx, List.foldl_cons,
      List.foldl_nil]
    rw [apply_ams_step_exhausts _ _ _ _ 1 (example_solution [0] 0 0) rfl hout,
      apply_ams_step_spent _ _ _ _ 2 (example_solution [-2] 0 0) rfl]
    norm_num [example_instance, example_solution, boundary_repair]

/-! The hardcoded threshold and the contraction of the multiplier -/

/-- C21: `update_distribution_multiplier` does not read the member
`sample_succes_ratio_threshold`: an instance with any other value of that member, and so any
two instances that differ only in it, return the same multiplier and stretch on the same
arguments; the threshold in force is the local `0.10`, whatever the member holds (the
constructor sets it to 0.1). -/
theorem update_distribution_multiplier_ignores_threshold (o : amalgam_univariate_t)
    (multiplier : ℚ) (improvement : Bool) (no_improvement_stretch sample_success_ratio sdr : ℚ) :
    (∀ t : ℚ,
      ({ o with sample_succes_ratio_threshold := t }).update_distribution_multiplier multiplier
          improvement no_improvement_stretch sample_success_ratio sdr
        = o.update_distribution_multiplier multiplier improvement no_improvement_stretch
          sample_success_ratio sdr) ∧
    (∀ o' : amalgam_univariate_t,
      { o with sample_succes_ratio_threshold := o'.sample_succes_ratio_threshold } = o' →
      o'.update_distribution_multiplier multiplier improvement no_improvement_stretch
          sample_success_ratio sdr
        = o.update_distribution_multiplier multiplier improvement no_improvement_stretch
          sample_success_ratio sdr) ∧
    (∀ t : ℚ,
      ({ o with sample_succes_ratio_threshold := t }).update_distribution_multiplier multiplier
          improvement no_improvement_stretch sample_success_ratio sdr
        = o.update_distribution_multiplier
          (if sample_success_ratio < 0.10 then multiplier * 0.5 else multiplier)
          improvement no_improvement_stretch 0.10 sdr) ∧
    (∀ (E : collaborators_t) (n : Nat) (lower upper : vec_t) (bandwidth : ℚ),
      (amalgam_univariate_t.construct E n lower upper bandwidth).sample_succes_ratio_threshold
        = 0.1) := by
  have hind : ∀ t : ℚ,
      ({ o with sample_succes_ratio_threshold := t }).update_distribution_multiplier multiplier
          improvement no_improvement_stretch sample_success_ratio sdr
        = o.update_distribution_multiplier multiplier improvement no_improvement_stretch
          sample_success_ratio sdr := fun _ => rfl
  refine ⟨hind, ?_, ?_, ?_⟩
  · intro o' h
    rw [← h]
    exact hind _
  · intro t
    rw [hind t]
    simp only [amalgam_univariate_t.update_distribution_multiplier, lt_irrefl, if_false]
  · intro E n lower upper bandwidth
    rfl

/-- Witness of `update_distribution_multiplier_ignores_threshold`: the default instance and
the instance whose member threshold is 0.9, at a ratio of 0.5. -/
theorem update_distribution_multiplier_ignores_threshold_witness :
    ({ example_instance [] (example_solution [0] 0 0) with
        sample_succes_ratio_threshold := 0.9 }).update_distribution_multiplier 3 false 0 0.5 0
      = (example_instance [] (example_solution [0] 0 0)).update_distribution_multiplier
          3 false 0 0.5 0 :=
  (update_distribution_multiplier_ignores_threshold
    (example_instance [] (example_solution [0] 0 0)) 3 false 0 0.5 0).2.1
    ({ example_instance [] (example_solution [0] 0 0) with
        sample_succes_ratio_threshold := 0.9 }) rfl

/-- C22: contraction below 1.0 happens only after a full stall: for
`0 < distribution_multiplier_decrease ≤ 1`, if the returned multiplier is below 1.0 then
`improvement` was false and the returned stretch is at least
`maximum_no_improvement_stretch`. -/
theorem update_distribution_multiplier_contraction (o : amalgam_univariate_t)
    (multiplier : ℚ) (improvement : Bool) (no_improvement_stretch sample_success_ratio sdr : ℚ)
    (hd0 : 0 < o.distribution_multiplier_decrease)
    (hd1 : o.distribution_multiplier_decrease ≤ 1)
    (hlt : (o.update_distribution_multiplier multiplier improvement no_improvement_stretch
      sample_success_ratio sdr).1 < 1.0) :
    improvement = false ∧
    (o.maximum_no_improvement_stretch : ℚ)
      ≤ (o.update_distribution_multiplier multiplier improvement no_improvement_stretch
          sample_success_ratio sdr).2 := by
  have h10 : (1.0 : ℚ) = 1 := by norm_num
  rw [h10] at hlt
  obtain ⟨m', hm'⟩ : ∃ m' : ℚ,
      m' = (if sample_success_ratio < 0.10 then multiplier * 0.5 else multiplier) := ⟨_, rfl⟩
  cases improvement with
  | true =>
    exfalso
    simp only [amalgam_univariate_t.update_distribution_multiplier, if_true, ← hm', h10]
      at hlt
    obtain ⟨F, hF, hF1⟩ : ∃ F : ℚ, F = (if m' < 1 then (1 : ℚ) else m') ∧ 1 ≤ F := by
      refine ⟨_, rfl, ?_⟩
      split_ifs with h
      · exact le_refl _
      · exact not_lt.mp h
    rw [← hF] at hlt
    split_ifs at hlt
    · rw [div_lt_iff₀ hd0] at hlt
      nlinarith
    · linarith
  | false =>
    refine ⟨rfl, ?_⟩
    simp only [amalgam_univariate_t.update_distribution_multiplier, Bool.false_eq_true,
      if_false, ← hm', h10] at hlt ⊢
    obtain ⟨s', hs'⟩ : ∃ s' : ℚ,
        s' = (if m' ≤ 1 then no_improvement_stretch + 1 else no_improvement_stretch) :=
      ⟨_, rfl⟩
    rw [← hs'] at hlt ⊢
    obtain ⟨m2, hm2⟩ : ∃ m2 : ℚ,
        m2 = (if m' > 1 ∨ s' ≥ (o.maximum_no_improvement_stretch : ℚ) then
          m' * o.distribution_multiplier_decrease else m') := ⟨_, rfl⟩
    rw [← hm2] at hlt
    by_contra hcon
    have hs : s' < (o.maximum_no_improvement_stretch : ℚ) := not_le.mp hcon
    by_cases hm : m2 < 1
    · rw [if_pos ⟨hm, hs⟩] at hlt
      exact lt_irrefl _ hlt
    · have hneg : ¬ (m2 < 1 ∧ s' < (o.maximum_no_improvement_stretch : ℚ)) := fun h => hm h.1
      rw [if_neg hneg] at hlt
      exact hm hlt

/-- Witness of `update_distribution_multiplier_contraction`: the default instance (decrease
0.9, maximum stretch 26) at multiplier 1/4 without improvement and with the stretch 26. -/
theorem update_distribution_multiplier_contraction_witness :
    false = false ∧
    ((example_instance [] (example_solution [0] 0 0)).maximum_no_improvement_stretch : ℚ)
      ≤ ((example_instance [] (example_solution [0] 0 0)).update_distribution_multiplier
          (1 / 4) false 26 0.5 0).2 :=
  update_distribution_multiplier_contraction (example_instance [] (example_solution [0] 0 0))
    (1 / 4) false 26 0.5 0 (by norm_num [example_instance]) (by norm_num [example_instance])
    (by norm_num [amalgam_univariate_t.update_distribution_multiplier, example_instance])

/-! The better-than ordering is a strict weak ordering -/

/-- C23: `better_solution` is a strict weak ordering on solutions with rational `f` and
`penalty`: it is irreflexive, asymmetric and transitive, and incomparability (neither
solution better than the other) is transitive. -/
theorem better_solution_strict_weak_order :
    (∀ a : solution_t, a.better_solution a = false) ∧
    (∀ a b : solution_t, a.better_solution b = true → b.better_solution a = false) ∧
    (∀ a b c : solution_t, a.better_solution b = true → b.better_solution c = true →
      a.better_solution c = true) ∧
    (∀ a b c : solution_t,
      a.better_solution b = false → b.better_solution a = false →
      b.better_solution c = false → c.better_solution b = false →
      a.better_solution c = false ∧ c.better_solution a = false) := by
  refine ⟨?_, ?_, ?_, ?_⟩
  · intro a
    unfold solution_t.better_solution
    split_ifs <;> simp
  · intro a b
    unfold solution_t.better_solution
    by_cases ha : a.penalty > 0 <;> by_cases hb : b.penalty > 0 <;>
      simp only [ha, hb, if_true, if_false, decide_eq_true_eq, decide_eq_false_iff_not,
        not_lt, Bool.false_eq_true, false_implies, implies_true]
    · intro h
      exact le_of_lt h
    · intro h
      exact le_of_lt h
  · intro a b c
    unfold solution_t.better_solution
    by_cases ha : a.penalty > 0 <;> by_cases hb : b.penalty > 0 <;>
      by_cases hc : c.penalty > 0 <;>
      simp only [ha, hb, hc, if_true, if_false, decide_eq_true_eq, Bool.false_eq_true,
        false_implies, implies_true]
    · intro h1 h2
      exact lt_trans h1 h2
    · intro h1 h2
      exact lt_trans h1 h2
  · intro a b c
    unfold solution_t.better_solution
    by_cases ha : a.penalty > 0 <;> by_cases hb : b.penalty > 0 <;>
      by_cases hc : c.penalty > 0 <;>
      simp only [ha, hb, hc, if_true, if_false, decide_eq_false_iff_not, not_lt,
        Bool.true_eq_false, false_implies, implies_true, and_self]
    · intro h1 h2 h3 h4
      exact ⟨le_trans h3 h1, le_trans h2 h4⟩
    · intro h1 h2 h3 h4
      exact ⟨le_trans h3 h1, le_trans h2 h4⟩

/-- Witness of `better_solution_strict_weak_order`: transitivity along a feasible solution
with `f = 1`, a feasible one with `f = 2` and an infeasible one. -/
theorem better_solution_strict_weak_order_witness :
    (example_solution [0] 1 0).better_solution (example_solution [0] 0 3) = true :=
  better_solution_strict_weak_order.2.2.1 (example_solution [0] 1 0) (example_solution [0] 2 0)
    (example_solution [0] 0 3)
    (by norm_num [solution_t.better_solution, example_solution])
    (by norm_num [solution_t.better_solution, example_solution])

/-! The first generation has no anticipated mean shift -/

/-- Component-wise addition is commutative. -/
theorem vec_add_comm (a b : vec_t) : vec_add a b = vec_add b a := by
  unfold vec_add
  induction a generalizing b with
  | nil => cases b <;> simp
  | cons x xs ih =>
    cases b with
    | nil => simp
    | cons y ys =>
      simp only [List.zipWith_cons_cons, List.cons.injEq]
      exact ⟨add_comm x y, ih ys⟩

/-- Adding two vectors to a third does not depend on their order. -/
theorem vec_add_right_comm (z x y : vec_t) :
    vec_add (vec_add z x) y = vec_add (vec_add z y) x := by
  unfold vec_add
  induction z generalizing x y with
  | nil => simp
  | cons a as ih =>
    cases x with
    | nil => cases y <;> simp
    | cons b bs =>
      cases y with
      | nil => simp
      | cons c cs =>
        simp only [List.zipWith_cons_cons, List.cons.injEq]
        exact ⟨by ring, ih bs cs⟩

/-- The sum of the parameter vectors of a population does not depend on the order of its
solutions. -/
theorem param_sum_perm (s s' : solution_t) (rest rest' : List solution_t)
    (h : List.Perm (s :: rest) (s' :: rest')) :
    rest.foldl (fun acc t => vec_add acc t.param) s.param
      = rest'.foldl (fun acc t => vec_add acc t.param) s'.param := by
  have hcomm : ∀ (l : List solution_t), ∀ x ∈ l, ∀ y ∈ l, ∀ z : vec_t,
      vec_add (vec_add z x.param) y.param = vec_add (vec_add z y.param) x.param :=
    fun _ x _ y _ z => vec_add_right_comm z x.param y.param
  by_cases heq : s = s'
  · subst heq
    exact List.Perm.foldl_eq' h.cons_inv (hcomm rest) s.param
  · have hs : s ∈ rest' := by
      have hmem : s ∈ s' :: rest' := h.subset (List.mem_cons_self s rest)
      rcases List.mem_cons.mp hmem with h1 | h1
      · exact absurd h1 heq
      · exact h1
    have hs' : s' ∈ rest := by
      have hmem : s' ∈ s :: rest := h.symm.subset (List.mem_cons_self s' rest')
      rcases List.mem_cons.mp hmem with h1 | h1
      · exact absurd h1.symm heq
      · exact h1
    have hrest : List.Perm rest (s' :: rest.erase s') := List.perm_cons_erase hs'
    have hrest' : List.Perm rest' (s :: rest'.erase s) := List.perm_cons_erase hs
    have hAB : List.Perm (rest.erase s') (rest'.erase s) := by
      have h1 : List.Perm (s :: s' :: rest.erase s') (s :: s' :: rest'.erase s) :=
        ((hrest.cons s).symm.trans h).trans ((hrest'.cons s').trans (List.Perm.swap s s' _))
      exact h1.cons_inv.cons_inv
    rw [List.Perm.foldl_eq' hrest (hcomm rest) s.param,
      List.Perm.foldl_eq' hrest' (hcomm rest') s'.param]
    simp only [List.foldl_cons]
    rw [vec_add_comm s'.param s.param]
    exact List.Perm.foldl_eq' hAB (hcomm _) _

/-- The arithmetic mean of a population does not depend on the order of its solutions. -/
theorem population_mean_perm (pop pop' : List solution_t) (h : List.Perm pop pop') :
    population_mean pop = population_mean pop' := by
  cases pop with
  | nil =>
    rw [List.Perm.nil_eq h]
  | cons s rest =>
    cases pop' with
    | nil => exact absurd h (List.cons_ne_nil _ _ ∘ List.Perm.eq_nil)
    | cons s' rest' =>
      simp only [population_mean]
      rw [param_sum_perm s s' rest rest' h, h.length_eq]

/-- A vector minus itself is the zero vector of the same dimension. -/
theorem vec_sub_self (m : vec_t) : vec_sub m m = List.replicate m.length 0 := by
  unfold vec_sub
  induction m with
  | nil => rfl
  | cons x xs ih =>
    simp only [List.zipWith_cons_cons, sub_self, List.length_cons, List.replicate_succ,
      List.cons.injEq, true_and]
    exact ih

/-- A shift along the zero vector leaves a point of at most its dimension where it is. -/
theorem vec_add_scale_zero (x : vec_t) (c : ℚ) (n : Nat) (h : x.length ≤ n) :
    vec_add x (vec_scale c (List.replicate n 0)) = x := by
  unfold vec_add vec_scale
  induction x generalizing n with
  | nil => simp
  | cons y ys ih =>
    cases n with
    | zero => simp at h
    | succ k =>
      simp only [List.replicate_succ, List.map_cons, mul_zero, List.zipWith_cons_cons, add_zero,
        List.cons.injEq, true_and]
      exact ih k (by simpa using h)

/-- The repair leaves a point within bounds as it is. -/
theorem boundary_repair_of_in_range (sample lower upper : vec_t)
    (h : in_range sample lower upper = true) :
    (boundary_repair sample lower upper).1 = sample := by
  induction sample generalizing lower upper with
  | nil => cases lower <;> cases upper <;> rfl
  | cons x xs ih =>
    cases lower with
    | nil => rfl
    | cons l ls =>
      cases upper with
      | nil => rfl
      | cons u us =>
        simp only [in_range, Bool.and_eq_true, decide_eq_true_eq] at h
        obtain ⟨⟨hl, hu⟩, hrest⟩ := h
        simp only [boundary_repair, not_lt.mpr hl, not_lt.mpr hu, gt_iff_lt, if_false,
          ih ls us hrest]

/-- Along the zero direction a step of the AMS loop leaves a solution within bounds as it is,
whatever the counter holds. -/
theorem apply_ams_step_zero_shift (o : amalgam_univariate_t) (ams_factor : ℚ) (m : vec_t)
    (st : List solution_t × Nat) (i : Nat) (s : solution_t)
    (hs : st.1[i]? = some s)
    (hin : in_range s.param o.lower_param_bounds o.upper_param_bounds = true)
    (hlen : s.param.length ≤ m.length) :
    (o.apply_ams_step ams_factor (vec_sub m m) st i).1[i]? = some s := by
  have hcand : vec_add s.param (vec_scale (2 * ams_factor) (vec_sub m m)) = s.param := by
    rw [vec_sub_self]
    exact vec_add_scale_zero _ _ _ hlen
  have hloop : ams_shrink_loop o.lower_param_bounds o.upper_param_bounds ams_factor
      (vec_sub m m) (100 - st.2)
      (st.2, 2, vec_add s.param (vec_scale (2 * ams_factor) (vec_sub m m)))
      = (st.2, 2, s.param) := by
    rw [hcand]
    exact ams_shrink_loop_stop _ _ _ _ _ _ _ _ (Or.inr hin)
  have hi : i < st.1.length := by
    by_contra hcon
    rw [List.getElem?_eq_none (not_lt.mp hcon)] at hs
    cases hs
  simp only [amalgam_univariate_t.apply_ams_step, hs, hloop,
    boundary_repair_of_in_range _ _ _ hin]
  split_ifs <;> exact List.getElem?_set_eq_of_lt _ hi

/-- Along the zero direction the AMS loop leaves a solution within bounds as it is. -/
theorem apply_ams_foldl_zero_shift (o : amalgam_univariate_t) (ams_factor : ℚ) (m : vec_t)
    (L : List Nat) (st : List solution_t × Nat) (i : Nat) (s : solution_t)
    (hs : st.1[i]? = some s)
    (hin : in_range s.param o.lower_param_bounds o.upper_param_bounds = true)
    (hlen : s.param.length ≤ m.length) :
    (L.foldl (o.apply_ams_step ams_factor (vec_sub m m)) st).1[i]? = some s := by
  induction L generalizing st with
  | nil => exact hs
  | cons x xs ih =>
    simp only [List.foldl_cons]
    apply ih
    by_cases hx : x = i
    · subst hx
      exact apply_ams_step_zero_shift o ams_factor m st x s hs hin hlen
    · rw [apply_ams_step_getElem_ne o ams_factor (vec_sub m m) st x i hx]
      exact hs

/-- When `mean` and `old_mean` agree, the AMS stage of `sample_new_population` leaves every
solution within bounds, of at most the dimension of the mean, as it is. -/
theorem sample_ams_zero_shift (o : amalgam_univariate_t) (hm : o.mean = o.old_mean)
    (sample_size i : Nat) (s : solution_t) (hs : o.pop[i]? = some s)
    (hin : in_range s.param o.lower_param_bounds o.upper_param_bounds = true)
    (hlen : s.param.length ≤ o.mean.length) :
    (o.sample_ams sample_size).pop[i]? = some s := by
  unfold amalgam_univariate_t.sample_ams
  by_cases h : o.apply_ams = true
  · rw [if_pos h]
    simp only [amalgam_univariate_t.apply_ams_to_population]
    rw [← hm]
    exact apply_ams_foldl_zero_shift o _ o.mean _ (o.pop, 0) i s hs hin hlen
  · rw [if_neg h]
    exact hs

/-- C24: the first generation has no anticipated mean shift.  For a non-empty population
whose sort is a permutation, after `initialize_from_population` followed by
`estimate_sample_parameters`: `multiplier = 1.0`, `no_improvement_stretch = 0`, `mean` and
`old_mean` are both the arithmetic mean of the population and `best` is the first solution
of the sorted population; so the `ams_direction = mean − old_mean` of
`sample_new_population` is the zero vector, and its AMS stage leaves every sampled point
that is within bounds (and of the dimension of the mean) unshifted. -/
theorem first_generation_no_shift (E : collaborators_t) (N : numerics_t)
    (o : amalgam_univariate_t) (pop : List solution_t) (hpop : pop ≠ [])
    (hperm : List.Perm (E.sort_on_fitness pop) pop) :
    ((o.initialize_from_population E pop).estimate_sample_parameters N).multiplier = 1.0 ∧
    ((o.initialize_from_population E pop).estimate_sample_parameters N).no_improvement_stretch
      = 0 ∧
    ((o.initialize_from_population E pop).estimate_sample_parameters N).mean
      = population_mean pop ∧
    ((o.initialize_from_population E pop).estimate_sample_parameters N).old_mean
      = population_mean pop ∧
    (E.sort_on_fitness pop).head?
      = some ((o.initialize_from_population E pop).estimate_sample_parameters N).best ∧
    vec_sub ((o.initialize_from_population E pop).estimate_sample_parameters N).mean
        ((o.initialize_from_population E pop).estimate_sample_parameters N).old_mean
      = List.replicate (population_mean pop).length 0 ∧
    (∀ (sampled : List solution_t) (sample_size i : Nat) (s : solution_t),
      sampled[i]? = some s →
      in_range s.param o.lower_param_bounds o.upper_param_bounds = true →
      s.param.length ≤ (population_mean pop).length →
      (({ (o.initialize_from_population E pop).estimate_sample_parameters N with
          pop := sampled }).sample_ams sample_size).pop[i]? = some s) := by
  have h10 : ¬ ((1.0 : ℚ) < 1.0) := lt_irrefl _
  have hmean : ((o.initialize_from_population E pop).estimate_sample_parameters N).mean
      = population_mean pop := by
    simp only [amalgam_univariate_t.estimate_sample_parameters,
      amalgam_univariate_t.initialize_from_population, h10, if_false]
    exact population_mean_perm _ _ hperm
  have hold : ((o.initialize_from_population E pop).estimate_sample_parameters N).old_mean
      = population_mean pop := rfl
  have hbest : (E.sort_on_fitness pop).head?
      = some ((o.initialize_from_population E pop).estimate_sample_parameters N).best := by
    have hne : E.sort_on_fitness pop ≠ [] := fun h => hpop (by
      rw [h] at hperm
      exact hperm.symm.eq_nil)
    cases hs : E.sort_on_fitness pop with
    | nil => exact absurd hs hne
    | cons b rest =>
      simp [amalgam_univariate_t.estimate_sample_parameters,
        amalgam_univariate_t.initialize_from_population, hs]
  refine ⟨rfl, rfl, hmean, hold, hbest, ?_, ?_⟩
  · rw [hmean, hold, vec_sub_self]
  · intro sampled sample_size i s hs hin hlen
    exact sample_ams_zero_shift
      ({ (o.initialize_from_population E pop).estimate_sample_parameters N with
          pop := sampled })
      (hmean.trans hold.symm) sample_size i s hs hin (by rw [← hmean] at hlen; exact hlen)

/-- Witness of `first_generation_no_shift`: the default instance initialised from the
solutions -1 and 1, and the sampled point 2 at index 1. -/
theorem first_generation_no_shift_witness :
    (({ ((example_instance [] (example_solution [0] 0 0)).initialize_from_population
          example_collaborators
          [example_solution [-1] 0 0, example_solution [1] 0 0]).estimate_sample_parameters
            example_numerics with
        pop := [example_solution [0] 0 0, example_solution [2] 0 0] }).sample_ams 20).pop[1]?
      = some (example_solution [2] 0 0) :=
  (first_generation_no_shift example_collaborators example_numerics
    (example_instance [] (example_solution [0] 0 0))
    [example_solution [-1] 0 0, example_solution [1] 0 0] (by simp)
    (List.Perm.refl _)).2.2.2.2.2.2
    [example_solution [0] 0 0, example_solution [2] 0 0] 20 1 (example_solution [2] 0 0) rfl
    (by norm_num [example_solution, example_instance, in_range])
    (by norm_num [example_solution, population_mean, vec_scale, vec_add])

/-! One generation never worsens the best solution -/

/-- Of two solutions one is not better than the other. -/
theorem better_solution_total (a b : solution_t) :
    b.better_solution a = false ∨ a.better_solution b = false := by
  unfold solution_t.better_solution
  by_cases ha : a.penalty > 0 <;> by_cases hb : b.penalty > 0 <;>
    simp only [ha, hb, if_true, if_false, decide_eq_false_iff_not, not_lt, or_true, true_or,
      Bool.true_eq_false, or_false, false_or]
  · exact le_total _ _
  · exact le_total _ _

/-- Being not worse is transitive: if `b` is not better than `a` and `c` is not better than
`b`, then `c` is not better than `a`. -/
theorem better_solution_not_better_trans (a b c : solution_t)
    (hab : b.better_solution a = false) (hbc : c.better_solution b = false) :
    c.better_solution a = false := by
  revert hab hbc
  unfold solution_t.better_solution
  by_cases ha : a.penalty > 0 <;> by_cases hb : b.penalty > 0 <;>
    by_cases hc : c.penalty > 0 <;>
    simp only [ha, hb, hc, if_true, if_false, decide_eq_false_iff_not, not_lt,
      Bool.true_eq_false, false_implies, implies_true, imp_false, not_true_eq_false]
  all_goals intro h1 h2
  all_goals first | exact le_trans h1 h2 | exact h2.elim

/-- The insertion sort by the better-than ordering returns a fittest-first permutation. -/
theorem insertionSort_better_solution (pop : List solution_t) :
    List.Perm (pop.insertionSort (fun a b => b.better_solution a = false)) pop ∧
    List.Pairwise (fun a b => b.better_solution a = false)
      (pop.insertionSort (fun a b => b.better_solution a = false)) := by
  haveI : IsTotal solution_t (fun a b => b.better_solution a = false) :=
    ⟨fun a b => better_solution_total a b⟩
  haveI : IsTrans solution_t (fun a b => b.better_solution a = false) :=
    ⟨fun a b c hab hbc => better_solution_not_better_trans a b c hab hbc⟩
  exact ⟨List.perm_insertionSort _ pop, List.sorted_insertionSort _ pop⟩

/-- C16: `sample_new_population` never worsens `best`.  The call leaves as its population
the sorted evaluation of the sampled and AMS-shifted population, returns the number of
evaluations, and increases `number_of_generations` by exactly 1.  Assume the sampling fill
places a copy of the previous best in slot 0, the evaluation leaves `f` and `penalty` of the
solution in slot 0 as they are (a deterministic objective evaluates it to the same values),
and the sort returns a fittest-first permutation.  Then after the call `best` is the first
solution of the sorted population, no evaluated solution is better than it, the previous
best is not better than it, and `best.f` has not grown when both are feasible. -/
theorem sample_new_population_best (E : collaborators_t) (o : amalgam_univariate_t)
    (sample_size : Nat) (rng : rng_t)
    (hfill : (o.sample_fill E sample_size rng).1[0]? = some o.best)
    (heval : ∀ s0,
      (({ o with pop := (o.sample_fill E sample_size rng).1 }).sample_ams sample_size).pop[0]?
        = some s0 →
      ∃ e, (E.evaluate (({ o with pop := (o.sample_fill E sample_size rng).1 }).sample_ams
          sample_size).pop).1[0]? = some e ∧ e.f = s0.f ∧ e.penalty = s0.penalty)
    (hperm : List.Perm
      (E.sort_on_fitness (E.evaluate (({ o with pop := (o.sample_fill E sample_size
        rng).1 }).sample_ams sample_size).pop).1)
      (E.evaluate (({ o with pop := (o.sample_fill E sample_size rng).1 }).sample_ams
        sample_size).pop).1)
    (hsorted : List.Pairwise (fun a b => b.better_solution a = false)
      (E.sort_on_fitness (E.evaluate (({ o with pop := (o.sample_fill E sample_size
        rng).1 }).sample_ams sample_size).pop).1)) :
    (o.sample_new_population E sample_size rng).1.pop
      = E.sort_on_fitness (E.evaluate (({ o with pop := (o.sample_fill E sample_size
          rng).1 }).sample_ams sample_size).pop).1 ∧
    (o.sample_new_population E sample_size rng).2
      = (E.evaluate (({ o with pop := (o.sample_fill E sample_size rng).1 }).sample_ams
          sample_size).pop).2 ∧
    (o.sample_new_population E sample_size rng).1.number_of_generations
      = o.number_of_generations + 1 ∧
    (E.sort_on_fitness (E.evaluate (({ o with pop := (o.sample_fill E sample_size
        rng).1 }).sample_ams sample_size).pop).1).head?
      = some (o.sample_new_population E sample_size rng).1.best ∧
    (∀ x ∈ (E.evaluate (({ o with pop := (o.sample_fill E sample_size rng).1 }).sample_ams
        sample_size).pop).1,
      x.better_solution (o.sample_new_population E sample_size rng).1.best = false) ∧
    o.best.better_solution (o.sample_new_population E sample_size rng).1.best = false ∧
    (¬ 0 < o.best.penalty → ¬ 0 < (o.sample_new_population E sample_size rng).1.best.penalty →
      (o.sample_new_population E sample_size rng).1.best.f ≤ o.best.f) := by
  obtain ⟨hframe, hzero⟩ :=
    sample_ams_frame ({ o with pop := (o.sample_fill E sample_size rng).1 }) sample_size
  have hslot : (({ o with pop := (o.sample_fill E sample_size rng).1 }).sample_ams
      sample_size).pop[0]? = some o.best := by
    rw [hzero]
    exact hfill
  obtain ⟨e, he, hef, hep⟩ := heval o.best hslot
  have hmem0 : e ∈ (E.evaluate (({ o with pop := (o.sample_fill E sample_size
      rng).1 }).sample_ams sample_size).pop).1 := List.mem_iff_getElem?.mpr ⟨0, he⟩
  have hbest : (o.sample_new_population E sample_size rng).1.best
      = (E.sort_on_fitness (E.evaluate (({ o with pop := (o.sample_fill E sample_size
          rng).1 }).sample_ams sample_size).pop).1).head?.getD
        (({ o with pop := (o.sample_fill E sample_size rng).1 }).sample_ams sample_size).best :=
    rfl
  have hgen : (o.sample_new_population E sample_size rng).1.number_of_generations
      = (({ o with pop := (o.sample_fill E sample_size rng).1 }).sample_ams
          sample_size).number_of_generations + 1 := rfl
  have hgen' : (o.sample_new_population E sample_size rng).1.number_of_generations
      = o.number_of_generations + 1 := by
    rw [hgen, hframe]
  refine ⟨rfl, rfl, hgen', ?_⟩
  rw [hbest]
  generalize (E.evaluate (({ o with pop := (o.sample_fill E sample_size
      rng).1 }).sample_ams sample_size).pop).1 = sample at hmem0 hperm hsorted ⊢
  generalize E.sort_on_fitness sample = sorted at hperm hsorted ⊢
  cases hs : sorted with
  | nil =>
    rw [hs] at hperm
    rw [hperm.symm.eq_nil] at hmem0
    cases hmem0
  | cons h t =>
    rw [hs] at hperm hsorted
    have hall : ∀ x ∈ sample, x.better_solution h = false := by
      intro x hx
      rcases List.mem_cons.mp (hperm.symm.subset hx) with heq | htail
      · rw [heq]
        exact better_solution_self h
      · exact (List.pairwise_cons.mp hsorted).1 x htail
    have hold : o.best.better_solution h = false := by
      rw [← better_solution_congr_left e o.best h hef hep]
      exact hall e hmem0
    simp only [List.head?_cons, Option.getD_some]
    refine ⟨trivial, hall, hold, ?_⟩
    intro hp1 hp2
    simp only [solution_t.better_solution, gt_iff_lt, hp1, hp2, if_false,
      decide_eq_false_iff_not, not_lt] at hold
    exact hold

/-- Witness of `sample_new_population_best`: one generation with AMS on.  The instance holds
its best solution 1 (with `f = 1`), `mean - old_mean = [1]` and `selection_fraction = 1`; the
fill adds the draws -3 and 0, the AMS stage shifts the solution at index 1, the objective
`x²` is evaluated on all three solutions and the insertion sort orders them. -/
theorem sample_new_population_best_witness :
    ({ example_instance [example_solution [1] 1 0] (example_solution [1] 1 0) with
        selection_fraction := 1
        mean := [1]
        old_mean := [0] }).best.better_solution
      (({ example_instance [example_solution [1] 1 0] (example_solution [1] 1 0) with
          selection_fraction := 1
          mean := [1]
          old_mean := [0] }).sample_new_population
        example_generation_collaborators 3 [-3, 0]).1.best = false :=
  (sample_new_population_best example_generation_collaborators
    ({ example_instance [example_solution [1] 1 0] (example_solution [1] 1 0) with
        selection_fraction := 1
        mean := [1]
        old_mean := [0] }) 3 [-3, 0] rfl
    (by
      intro s0 h0
      rw [(sample_ams_frame _ 3).2] at h0
      have hs0 : s0 = example_solution [1] 1 0 := by
        have h1 : some (example_solution [1] 1 0) = some s0 := h0
        exact (Option.some.inj h1).symm
      subst hs0
      refine ⟨{ example_solution [1] 1 0 with
          f := ((example_solution [1] 1 0).param.headD 0) ^ 2, penalty := 0 }, ?_, ?_, ?_⟩
      · have hmap : ∀ (l : List solution_t) (g : solution_t → solution_t) (x : solution_t),
            l[0]? = some x → (l.map g)[0]? = some (g x) := by
          intro l g x hx
          rw [List.getElem?_map, hx]
          rfl
        exact hmap _ _ _ ((sample_ams_frame _ 3).2.trans rfl)
      · norm_num [example_solution]
      · rfl)
    (insertionSort_better_solution _).1
    (insertionSort_better_solution _).2).2.2.2.2.2.1

/-! The sample success ratio as a `double` quotient -/

/-- The call on a possibly non-finite ratio acts as the comparison `ratio < 0.10` of line 109
on that ratio: the multiplier is halved exactly when the comparison holds, and the remaining
rules are applied to the result. -/
theorem update_distribution_multiplier_quotient_eq (o : amalgam_univariate_t)
    (multiplier : ℚ) (improvement : Bool) (no_improvement_stretch : ℚ)
    (ratio : quotient_t) (sdr : ℚ) :
    o.update_distribution_multiplier_quotient multiplier improvement no_improvement_stretch
        ratio sdr
      = o.update_distribution_multiplier
          (if ratio.lt 0.10 = true then multiplier * 0.5 else multiplier)
          improvement no_improvement_stretch 0.10 sdr := by
  cases ratio with
  | finite q =>
    simp only [amalgam_univariate_t.update_distribution_multiplier_quotient,
      amalgam_univariate_t.update_distribution_multiplier, quotient_t.lt, decide_eq_true_eq,
      lt_irrefl, if_false]
  | pos_inf =>
    norm_num [amalgam_univariate_t.update_distribution_multiplier_quotient,
      amalgam_univariate_t.update_distribution_multiplier, quotient_t.lt]
  | neg_inf =>
    norm_num [amalgam_univariate_t.update_distribution_multiplier_quotient,
      amalgam_univariate_t.update_distribution_multiplier, quotient_t.lt]
  | nan =>
    norm_num [amalgam_univariate_t.update_distribution_multiplier_quotient,
      amalgam_univariate_t.update_distribution_multiplier, quotient_t.lt]

/-- With `number_of_samples = 0` the ratio is `+inf` or NaN and is not below `0.10`: the
multiplier is not halved. -/
theorem sample_success_ratio_zero_samples (sample_size : Nat) :
    (sample_success_ratio sample_size 0).lt 0.10 = false := by
  unfold sample_success_ratio fdiv
  have hnn : ¬ ((((sample_size + 2 ^ 64 - 1) % 2 ^ 64 : Nat) : ℚ) < 0) :=
    not_lt.mpr (Nat.cast_nonneg _)
  simp only [Int.cast_zero, if_true, hnn, if_false]
  split_ifs <;> rfl
end hillvallea
